import Mathlib

/-
Shallow embedding of the trading-bot repository's data-acquisition pipeline:
`Helper.get_paginated_request`, `Helper.set_date`, `Helper.set_str_list`
(src/algorithmic_trading/helper.py) and `DataManager.get_historical_tickers`,
`DataManager.get_historical_ohlc`, `DataManager.post_historical_ohlc`
(src/algorithmic_trading/data_manager.py).

Modelling conventions:
- HTTP traffic is modelled by an explicit list of upcoming provider responses,
  consumed one per issued request; the list of issued request URLs is logged.
  An exhausted response list stands for a network timeout (`requests` raises).
- A JSON body is modelled by its four relevant optional keys
  (`status`, `results`, `resultsCount`, `next_url`); accessing a missing
  unguarded key is a Python `KeyError`.
- Python exceptions are the `PyError` type; exception messages keep the
  source's wording minus interpolated values.
- `datetime` values are wall-clock milliseconds plus an optional utc-offset
  (milliseconds); `tzinfo` object equality is offset equality.  ISO-string
  parsing (`datetime.fromisoformat`) is abstracted as a `parseIso` parameter;
  the machine's local timezone (used by naive `datetime.timestamp()` and
  `fromtimestamp`) is an explicit `localTz` parameter.
- Polars dataframes are row lists; `vstack` is append;
  `unique(subset=..., keep='last')` is modelled by the stable `dedupLast`
  (last occurrence of each key, in order of last occurrence), and
  `unique('timestamp')` by the stable `uniqueFirst`.
- A partition folder is an association list from the partition date (UTC day
  index of the display timestamp) to the parquet file's row list; the display
  timestamp string is represented by the epoch-millisecond instant it denotes
  (the `strftime` rendering is injective).
-/

deriving instance DecidableEq for Except

/-- Python exceptions raised by the modelled code paths. -/
inductive PyError where
  | valueError (msg : String)
  | keyError (key : String)
  | typeError (msg : String)
  | timeout
deriving DecidableEq

/-- Parsed JSON body of one provider response: the four keys the code reads.
`U` is the type of continuation URLs, `A` the row type of `results`. -/
structure JsonBody (U A : Type) where
  status : Option String
  results : Option (List A)
  resultsCount : Option Nat
  next_url : Option U
deriving DecidableEq

/-- One HTTP response: status code plus parsed JSON body. -/
structure Response (U A : Type) where
  status_code : Nat
  body : JsonBody U A
deriving DecidableEq

/-- Warnings emitted by `get_paginated_request` (via `warnings.warn`). -/
inductive EngineWarning (U : Type) where
  | httpRequestFailed (url : U)
  | noResultsFound (url : U)
deriving DecidableEq

/-- Observable outcome of one `get_paginated_request` call: the returned
dataframe (or raised exception), the request URLs issued in order, the
warnings emitted, and the total `time.sleep` duration. -/
structure FetchOut (U A : Type) where
  outcome : Except PyError (List A)
  log : List U
  warns : List (EngineWarning U)
  slept : Nat

/-- Message of the ValueError raised on a non-200 response in safe mode
(`f'http request failed: {request_url}'` minus the interpolated URL). -/
def httpFailedMsg : String := "http request failed"

/-- The `while 'next_url' in request_json` pagination loop of
`Helper.get_paginated_request` (helper.py lines 58-65).  `json` is the most
recent parsed body, `acc` the accumulated `results_df` rows.  Each iteration
appends the API key to the continuation URL, issues the request (its HTTP
status code is never inspected), applies the retry-once-on-soft-error rule,
and vstacks the page's `results`. -/
def pagLoop {U A : Type} (addKey : U → U) (json : JsonBody U A) (acc : List A)
    (log : List U) (warns : List (EngineWarning U)) (slept : Nat)
    (responses : List (Response U A)) : FetchOut U A :=
  match json.next_url with
  | none => ⟨.ok acc, log, warns, slept⟩
  | some nu =>
    let url := addKey nu
    match responses with
    | [] => ⟨.error .timeout, log ++ [url], warns, slept⟩
    | r :: rest =>
      match r.body.status with
      | none => ⟨.error (.keyError "status"), log ++ [url], warns, slept⟩
      | some st =>
        if st = "ERROR" then
          match rest with
          | [] => ⟨.error .timeout, log ++ [url, url], warns, slept + 70⟩
          | r2 :: rest2 =>
            match r2.body.results with
            | none => ⟨.error (.keyError "results"), log ++ [url, url], warns, slept + 70⟩
            | some rows =>
              pagLoop addKey r2.body (acc ++ rows) (log ++ [url, url]) warns (slept + 70) rest2
        else
          match r.body.results with
          | none => ⟨.error (.keyError "results"), log ++ [url], warns, slept⟩
          | some rows =>
            pagLoop addKey r.body (acc ++ rows) (log ++ [url]) warns slept rest

/-- Processing of the first page's (possibly retried) body in
`Helper.get_paginated_request` (helper.py lines 53-57): the
`resultsCount == 0` early return (warn and return an empty dataframe,
regardless of `safe`), the construction of the first `results_df`, and entry
into the pagination loop. -/
def firstBody {U A : Type} (addKey : U → U) (request_url : U) (json : JsonBody U A)
    (log : List U) (slept : Nat) (responses : List (Response U A)) : FetchOut U A :=
  if json.resultsCount = some 0 then
    ⟨.ok [], log, [.noResultsFound request_url], slept⟩
  else
    match json.results with
    | none => ⟨.error (.keyError "results"), log, [], slept⟩
    | some rows => pagLoop addKey json rows log [] slept responses

/-- Model of `Helper.get_paginated_request` (helper.py lines 19-66).
`addKey` appends the API key to a continuation URL; `responses` are the
provider's upcoming responses in the order requests will be issued.
First request: non-200 status fails (safe) or warns and returns empty
(not safe); then `status == 'ERROR'` sleeps 70 and re-issues the same URL
once, continuing with whatever the retry returned. -/
def get_paginated_request {U A : Type} (addKey : U → U) (request_url : U) (safe : Bool)
    (responses : List (Response U A)) : FetchOut U A :=
  match responses with
  | [] => ⟨.error .timeout, [request_url], [], 0⟩
  | r :: rest =>
    if r.status_code ≠ 200 then
      if safe then ⟨.error (.valueError httpFailedMsg), [request_url], [], 0⟩
      else ⟨.ok [], [request_url], [.httpRequestFailed request_url], 0⟩
    else
      match r.body.status with
      | none => ⟨.error (.keyError "status"), [request_url], [], 0⟩
      | some st =>
        if st = "ERROR" then
          match rest with
          | [] => ⟨.error .timeout, [request_url, request_url], [], 70⟩
          | r2 :: rest2 => firstBody addKey request_url r2.body [request_url, request_url] 70 rest2
        else firstBody addKey request_url r.body [request_url] 0 rest

/-- A healthy provider response (HTTP 200, status OK) carrying `rows` and an
optional continuation URL; `resultsCount` is declared as the row count. -/
def goodResp {A : Type} (rows : List A) (nu : Option String) : Response String A :=
  ⟨200, ⟨some "OK", some rows, some rows.length, nu⟩⟩

/-- Synthetic provider serving the given pages in order: every page except the
last carries a `next_url` continuation, the last carries none. -/
def mkResponses {A : Type} : List (List A) → List (Response String A)
  | [] => []
  | rows :: rest => goodResp rows (if rest.isEmpty then none else some "next") :: mkResponses rest

/-- A single-page healthy response with no continuation and no
`resultsCount` key. -/
def onePage {A : Type} (rows : List A) : Response String A :=
  ⟨200, ⟨some "OK", some rows, none, none⟩⟩

/-- The `f'{next_url}&apiKey={POLYGON_API_KEY}'` continuation-URL rewrite. -/
def addKeyStr (apiKey : String) (u : String) : String := u ++ "&apiKey=" ++ apiKey

/-- Python `datetime.datetime`: wall-clock milliseconds since the epoch's
wall reading, plus the `tzinfo` utc offset in milliseconds (none = naive). -/
structure PyDateTime where
  wall : Int
  tz : Option Int
deriving DecidableEq

/-- Which branch of the tz-normalization `if/elif` chain in `Helper.set_date`
(helper.py lines 95-98) fired. -/
inductive TzBranch where
  | replaced
  | converted
  | kept
deriving DecidableEq

/-- Python `datetime.astimezone`: convert to the target zone preserving the
represented instant (naive input would use the local zone; the branch calling
this is unreachable, see the C10 theorem). -/
def astimezone (d : PyDateTime) (tz : Int) : PyDateTime :=
  ⟨d.wall - d.tz.getD 0 + tz, some tz⟩

/-- The tz-normalization of `Helper.set_date` (helper.py lines 95-98) with an
explicit trace of which branch fired:
`if date.tzinfo is None or date.tzinfo != tz: date = date.replace(tzinfo=tz)`
`elif date.tzinfo != tz: date = date.astimezone(tz)`. -/
def normalize_tz_traced (d : PyDateTime) (tz : Int) : PyDateTime × TzBranch :=
  if d.tz = none ∨ ¬ d.tz = some tz then (⟨d.wall, some tz⟩, .replaced)
  else if ¬ d.tz = some tz then (astimezone d tz, .converted)
  else (d, .kept)

/-- The tz-normalization of `Helper.set_date`, value part. -/
def normalize_tz (d : PyDateTime) (tz : Int) : PyDateTime :=
  (normalize_tz_traced d tz).1

/-- Python `datetime.fromtimestamp` without tz argument: naive local
wall-clock time for the given epoch milliseconds. -/
def fromtimestamp (tms localTz : Int) : PyDateTime := ⟨tms + localTz, none⟩

/-- Milliseconds of `date.timestamp()` (the represented instant): wall clock
minus the utc offset, the local offset being used for naive values.  This is
what `int(date.timestamp() * 1000)` returns in `Helper.set_date`. -/
def timestamp_ms (d : PyDateTime) (localTz : Int) : Int :=
  d.wall - d.tz.getD localTz

/-- The `date` argument union type of `Helper.set_date`
(str | datetime.date | datetime.datetime | int | float).  An ISO string is
represented by itself (parsed by the `parseIso` parameter); int/float unix
timestamps carry their epoch milliseconds; a `datetime.date` carries its day
number (combined with midnight by the code); `other` is any invalid type. -/
inductive DateInput where
  | str (s : String)
  | dt (d : PyDateTime)
  | date (days : Int)
  | num (tms : Int)
  | other
deriving DecidableEq

/-- Model of `Helper.set_date` up to (and including) tz-normalization
(helper.py lines 85-98): coerce the input to a datetime, then normalize its
tzinfo.  The formatting step is `set_date` below. -/
def set_date_norm (parseIso : String → Except PyError PyDateTime) (localTz : Int)
    (date : DateInput) (tz : Int) : Except PyError PyDateTime :=
  match date with
  | .dt d => .ok (normalize_tz d tz)
  | .str s => (parseIso s).map (fun d => normalize_tz d tz)
  | .num tms => .ok (normalize_tz (fromtimestamp tms localTz) tz)
  | .date days => .ok (normalize_tz ⟨days * 86400000, none⟩ tz)
  | .other => .error (.typeError "date must be isoformat date string, unix millisecond timestamp, date object, or datetime object")

/-- Return values of `Helper.set_date`: a datetime, an ISO string (represented
by the datetime it prints), or an integer millisecond timestamp. -/
inductive DateOut where
  | dt (d : PyDateTime)
  | iso (d : PyDateTime)
  | ts (ms : Int)
deriving DecidableEq

/-- Model of `Helper.set_date` (helper.py lines 85-107): input coercion,
tz-normalization, then dispatch on `fmt`. -/
def set_date (parseIso : String → Except PyError PyDateTime) (localTz : Int)
    (date : DateInput) (fmt : String) (tz : Int) : Except PyError DateOut :=
  match set_date_norm parseIso localTz date tz with
  | .error e => .error e
  | .ok d =>
    if fmt = "datetime" then .ok (.dt d)
    else if fmt = "isoformat" then .ok (.iso d)
    else if fmt = "timestamp" then .ok (.ts (timestamp_ms d localTz))
    else .error (.valueError "invalid fmt argument")

/-- The `lst` argument union type of `Helper.set_str_list`
(str | list | numpy array); `pyNone` is Python `None` (the unspecified
default of the collectors), `otherVal` any other invalid value. -/
inductive StrListArg where
  | strArr (l : List String)
  | nonStrArr
  | str (s : String)
  | list (l : List String)
  | pyNone
  | otherVal
deriving DecidableEq

/-- Model of `Helper.set_str_list` (helper.py lines 154-163): numpy string
arrays pass through, a string becomes a singleton, a list is coerced to a
string array, anything else (including `None`) raises TypeError. -/
def set_str_list : StrListArg → Except PyError (List String)
  | .strArr l => .ok l
  | .nonStrArr => .error (.typeError "arg lst must be an array of strings")
  | .str s => .ok [s]
  | .list l => .ok l
  | .pyNone => .error (.typeError "invalid lst argument: must be of type string, list, or numpy array")
  | .otherVal => .error (.typeError "invalid lst argument: must be of type string, list, or numpy array")

/-- The `valid_timeframes` set of `DataManager.__ohlc_input_validator`. -/
def validTimeframes : List String :=
  ["hour", "day", "minute", "week", "month", "quarter", "year", "second"]

/-- Message of the inverted-date-range ValueError in
`DataManager.get_historical_ohlc`. -/
def dateOrderMsg : String := "start_date must be earlier than end_date"

/-- Message of the invalid-timeframe ValueError in
`DataManager.__ohlc_input_validator`. -/
def invalidTimeframeMsg : String := "invalid timeframe argument"

/-- Message of the invalid-multiplier ValueError in
`DataManager.__ohlc_input_validator`. -/
def multiplierMsg : String := "multiplier must be an integer greater than 0"

/-- Model of `DataManager.__ohlc_input_validator` (data_manager.py lines
47-63): timeframe must be in the valid set, multiplier an integer >= 1.
(The model's `multiplier` is typed `Int`, so `isinstance(multiplier, int)`
holds by construction.) -/
def ohlc_input_validator (timeframe : String) (multiplier : Int) : Except PyError Unit :=
  if timeframe ∈ validTimeframes then
    if multiplier < 1 then .error (.valueError multiplierMsg) else .ok ()
  else .error (.valueError invalidTimeframeMsg)

/-- One raw OHLC result row as returned by the aggregates endpoint before the
`with_columns` fill/derive steps: optional `ticker`, epoch-ms `t`, optional
`otc` flag, and `fields` condensing the remaining numeric columns
(o/h/l/c/v/vw/n). -/
structure OhlcRawRow where
  ticker : Option String
  t : Nat
  otc : Option Bool
  fields : Int
deriving DecidableEq

/-- One reshaped OHLC row after `get_historical_ohlc`'s `with_columns` steps:
ticker filled with the requested symbol, `otc` defaulted to false, and the
display `timestamp` derived from the epoch column `t` (the UTC ISO string is
represented by the epoch-ms instant it denotes). -/
structure OhlcRow where
  ticker : String
  timestamp : Nat
  t : Nat
  otc : Bool
  fields : Int
deriving DecidableEq

/-- The three `with_columns` transformations of `DataManager.get_historical_ohlc`
(data_manager.py lines 106-113): `fill_null` on `otc` with False, `fill_null`
on `ticker` with the requested symbol, and the timestamp derivation from `t`. -/
def reshape (tk : String) (r : OhlcRawRow) : OhlcRow :=
  ⟨r.ticker.getD tk, r.t, r.t, r.otc.getD false, r.fields⟩

/-- Warnings emitted during `DataManager.get_historical_ohlc`. -/
inductive OhlcWarning where
  | slashTicker (ticker : String)
  | noDataTicker (ticker : String)
  | noDataAll
  | fromEngine (w : EngineWarning String)
deriving DecidableEq

/-- Observable outcome of a collector call: result rows (or exception),
request URLs issued in order, warnings emitted. -/
structure CollectOut (B : Type) where
  outcome : Except PyError (List B)
  log : List String
  warns : List OhlcWarning
deriving DecidableEq

/-- The aggregates request URL built by `DataManager.get_historical_ohlc`
(data_manager.py line 101). -/
def ohlc_url (multiplier : Int) (timeframe : String) (start_ts end_ts : Int)
    (apiKey ticker : String) : String :=
  "https://api.polygon.io/v2/aggs/ticker/" ++ ticker ++ "/range/" ++ toString multiplier ++
    "/" ++ timeframe ++ "/" ++ toString start_ts ++ "/" ++ toString end_ts ++
    "?adjusted=true&sort=asc&limit=50000&apiKey=" ++ apiKey

/-- The per-ticker loop of `DataManager.get_historical_ohlc` (data_manager.py
lines 97-115): skip tickers containing a slash with a warning, fetch the rest
in non-safe mode, skip empty results with a warning, reshape and vstack. -/
def ohlc_loop (apiKey : String) (net : String → List (Response String OhlcRawRow))
    (multiplier : Int) (timeframe : String) (start_ts end_ts : Int) :
    List String → List OhlcRow → List String → List OhlcWarning → CollectOut OhlcRow
  | [], acc, log, warns => ⟨.ok acc, log, warns⟩
  | tk :: tks, acc, log, warns =>
    if tk.data.contains '/' then
      ohlc_loop apiKey net multiplier timeframe start_ts end_ts tks acc log
        (warns ++ [.slashTicker tk])
    else
      let url := ohlc_url multiplier timeframe start_ts end_ts apiKey tk
      let f := get_paginated_request (addKeyStr apiKey) url false (net url)
      match f.outcome with
      | .error e => ⟨.error e, log ++ f.log, warns ++ f.warns.map .fromEngine⟩
      | .ok rows =>
        if rows.length = 0 then
          ohlc_loop apiKey net multiplier timeframe start_ts end_ts tks acc (log ++ f.log)
            (warns ++ f.warns.map .fromEngine ++ [.noDataTicker tk])
        else
          ohlc_loop apiKey net multiplier timeframe start_ts end_ts tks
            (acc ++ rows.map (reshape tk)) (log ++ f.log) (warns ++ f.warns.map .fromEngine)

/-- Model of `DataManager.get_historical_ohlc` (data_manager.py lines 66-119)
on the explicit-tickers path (`tickers` given, `use_ticker_types=False`; the
`tickers=None` catalog-file path is out of the modelled scope): canonicalize
both dates to millisecond timestamps (tz=UTC), reject inverted ranges, coerce
the ticker argument, validate timeframe/multiplier, then run the per-ticker
fetch loop; finally warn if the accumulated table is empty.  All precondition
failures happen before any request URL is logged. -/
def get_historical_ohlc (parseIso : String → Except PyError PyDateTime) (localTz : Int)
    (apiKey : String) (net : String → List (Response String OhlcRawRow))
    (start_date end_date : DateInput) (tickers : StrListArg)
    (timeframe : String) (multiplier : Int) : CollectOut OhlcRow :=
  match set_date_norm parseIso localTz start_date 0 with
  | .error e => ⟨.error e, [], []⟩
  | .ok ds =>
  match set_date_norm parseIso localTz end_date 0 with
  | .error e => ⟨.error e, [], []⟩
  | .ok de =>
  let start_ts := timestamp_ms ds localTz
  let end_ts := timestamp_ms de localTz
  if end_ts < start_ts then ⟨.error (.valueError dateOrderMsg), [], []⟩
  else
  match set_str_list tickers with
  | .error e => ⟨.error e, [], []⟩
  | .ok tks =>
  match ohlc_input_validator timeframe multiplier with
  | .error e => ⟨.error e, [], []⟩
  | .ok _ =>
  let res := ohlc_loop apiKey net multiplier timeframe start_ts end_ts tks [] [] []
  match res.outcome with
  | .ok rows =>
    if rows.length = 0 then ⟨.ok rows, res.log, res.warns ++ [.noDataAll]⟩ else res
  | .error _ => res

/-- Observable outcome of `get_historical_tickers`: result rows (or
exception), request URLs issued in order, engine warnings emitted. -/
structure TickersOut (B : Type) where
  outcome : Except PyError (List B)
  log : List String
  warns : List (EngineWarning String)
deriving DecidableEq

/-- The reference-tickers request URL built by
`DataManager.get_historical_tickers` (data_manager.py lines 35 and 41). -/
def tickers_url (apiKey datePart ty : String) (active : Bool) : String :=
  "https://api.polygon.io/v3/reference/tickers?type=" ++ ty ++ "&market=stocks&" ++ datePart ++
    "active=" ++ (if active then "true" else "false") ++
    "&order=asc&limit=1000&sort=ticker&apiKey=" ++ apiKey

/-- The per-type loop of `DataManager.get_historical_tickers` (data_manager.py
lines 34-43): for each ticker type fetch active tickers, then (unless
delisted tickers are excluded) fetch inactive tickers, vstacking in order. -/
def tickers_loop {B : Type} (apiKey : String) (net : String → List (Response String B))
    (datePart : String) (include_delisted : Bool) :
    List String → List B → List String → List (EngineWarning String) → TickersOut B
  | [], acc, log, warns => ⟨.ok acc, log, warns⟩
  | ty :: rest, acc, log, warns =>
    let u1 := tickers_url apiKey datePart ty true
    let f1 := get_paginated_request (addKeyStr apiKey) u1 true (net u1)
    match f1.outcome with
    | .error e => ⟨.error e, log ++ f1.log, warns ++ f1.warns⟩
    | .ok rows1 =>
      if include_delisted then
        let u2 := tickers_url apiKey datePart ty false
        let f2 := get_paginated_request (addKeyStr apiKey) u2 true (net u2)
        match f2.outcome with
        | .error e => ⟨.error e, log ++ f1.log ++ f2.log, warns ++ f1.warns ++ f2.warns⟩
        | .ok rows2 =>
          tickers_loop apiKey net datePart include_delisted rest (acc ++ rows1 ++ rows2)
            (log ++ f1.log ++ f2.log) (warns ++ f1.warns ++ f2.warns)
      else
        tickers_loop apiKey net datePart include_delisted rest (acc ++ rows1)
          (log ++ f1.log) (warns ++ f1.warns)

/-- The `include_delisted` argument as received from Python: a boolean or a
value of some other type (`isinstance(include_delisted, bool)` fails). -/
inductive PyBoolArg where
  | b (val : Bool)
  | notBool
deriving DecidableEq

/-- The calendar day index (UTC) of a datetime's wall clock: Python
`datetime.date()` of the value, as days since the epoch. -/
def pyDate (d : PyDateTime) : Int := d.wall.fdiv 86400000

/-- Model of `DataManager.get_historical_tickers` (data_manager.py lines
15-44): coerce `ticker_types` through `set_str_list` (so the `None` default
raises TypeError), build the optional `date=...&` query fragment, check that
`include_delisted` is a boolean, then run the per-type loop. -/
def get_historical_tickers {B : Type} (parseIso : String → Except PyError PyDateTime)
    (localTz : Int) (apiKey : String) (net : String → List (Response String B))
    (ticker_types : StrListArg) (include_delisted : PyBoolArg) (date : String) :
    TickersOut B :=
  match set_str_list ticker_types with
  | .error e => ⟨.error e, [], []⟩
  | .ok tys =>
  match (if date = "" then Except.ok "" else
      (set_date_norm parseIso localTz (.str date) 0).map
        (fun d => "date=" ++ toString (pyDate d) ++ "&")) with
  | .error e => ⟨.error e, [], []⟩
  | .ok datePart =>
  match include_delisted with
  | .notBool => ⟨.error (.typeError "include_delisted must be a boolean"), [], []⟩
  | .b incl => tickers_loop apiKey net datePart incl tys [] [] []

/-- The deduplication key of `post_historical_ohlc`:
`unique(subset=['timestamp', 'ticker'], ...)`. -/
def rowKey (r : OhlcRow) : Nat × String := (r.timestamp, r.ticker)

/-- Polars `unique(subset=['timestamp','ticker'], keep='last')`, stable form:
keep the last occurrence of each key, in order of last occurrence. -/
def dedupLast : List OhlcRow → List OhlcRow
  | [] => []
  | x :: xs => if xs.any (fun y => rowKey y == rowKey x) then dedupLast xs else x :: dedupLast xs

/-- The on-disk partition directory for one (timeframe, multiplier) bucket:
an association list from partition date (UTC day index) to the parquet
file's rows, in file-creation order. -/
abbrev Folder : Type := List (Int × List OhlcRow)

/-- Read a partition file (`pl.read_parquet` when `os.path.exists`). -/
def fsRead (fs : Folder) (d : Int) : Option (List OhlcRow) :=
  match fs.find? (fun e => e.1 == d) with
  | some e => some e.2
  | none => none

/-- Write (create or overwrite) a partition file (`write_parquet`). -/
def fsWrite : Folder → Int → List OhlcRow → Folder
  | [], d, rows => [(d, rows)]
  | e :: rest, d, rows => if e.1 == d then (d, rows) :: rest else e :: fsWrite rest d rows

/-- The partition date of a display timestamp:
`Helper.set_date(timestamp, 'datetime', tz=utc).date().isoformat()` applied to
a UTC display string (the string denotes instant `t` ms; parsing yields the
aware value `⟨t, some 0⟩`, normalization keeps it, `.date()` is `pyDate`). -/
def dateOf (t : Nat) : Int := pyDate (normalize_tz ⟨(t : Int), some 0⟩ 0)

/-- The per-timestamp loop of `DataManager.post_historical_ohlc`
(data_manager.py lines 143-154): filter the rows of one timestamp, derive the
partition date, then either merge into the existing partition file with
last-write-wins dedup on (timestamp, ticker), or create the file from the
filtered rows directly. -/
def persistLoop (data : List OhlcRow) : List Nat → Folder → Folder
  | [], fs => fs
  | t :: ts, fs =>
    let rows_t := data.filter (fun r => r.timestamp == t)
    if rows_t.length = 0 then persistLoop data ts fs
    else
      match fsRead fs (dateOf t) with
      | some existing => persistLoop data ts (fsWrite fs (dateOf t) (dedupLast (existing ++ rows_t)))
      | none => persistLoop data ts (fsWrite fs (dateOf t) rows_t)

/-- Polars `data_df.unique('timestamp')...to_list()`, stable form: the
distinct timestamp values in order of first occurrence. -/
def uniqueFirst : List Nat → List Nat
  | [] => []
  | t :: ts => t :: (uniqueFirst ts).filter (fun u => u != t)

/-- Model of `DataManager.post_historical_ohlc` (data_manager.py lines
122-154) for one (timeframe, multiplier) bucket whose root directory exists:
validate the timeframe/multiplier arguments, then run the per-timestamp
partition merge loop over the distinct timestamps of `data_df`. -/
def post_historical_ohlc (data_df : List OhlcRow) (timeframe : String) (multiplier : Int)
    (fs : Folder) : Except PyError Folder :=
  match ohlc_input_validator timeframe multiplier with
  | .error e => .error e
  | .ok _ => .ok (persistLoop data_df (uniqueFirst (data_df.map (fun r => r.timestamp))) fs)

/-- Proof device: the effect of `persistLoop` on the single partition file of
date `d`, as a fold over the timestamps mapping to `d` (`cur` is the file's
current content, `none` when the file does not exist yet). -/
def dateFold (data : List OhlcRow) : List Nat → Option (List OhlcRow) → Option (List OhlcRow)
  | [], cur => cur
  | t :: ts, cur =>
    let rows_t := data.filter (fun r => r.timestamp == t)
    if rows_t.length = 0 then dateFold data ts cur
    else
      match cur with
      | some existing => dateFold data ts (some (dedupLast (existing ++ rows_t)))
      | none => dateFold data ts (some rows_t)

/-- A row list is key-unique when no two entries share (timestamp, ticker). -/
def UKeys (L : List OhlcRow) : Prop :=
  L.Pairwise fun x y => rowKey x ≠ rowKey y

/-- Key names of the partition files of a folder, in creation order. -/
def fsKeys (fs : Folder) : List Int := fs.map (fun e => e.1)

/-- Proof device: the concatenation, in timestamp order, of the per-timestamp
row groups of `data` — the content a fresh partition accumulates. -/
def flatGroups (data : List OhlcRow) (ts : List Nat) : List OhlcRow :=
  ts.flatMap (fun t => data.filter (fun r => r.timestamp == t))

instance (L : List OhlcRow) : Decidable (UKeys L) := by
  unfold UKeys
  infer_instance

/-- Unfolding lemma: with no continuation cursor the loop returns the
accumulated table without touching the remaining responses. -/
theorem pagLoop_next_none {U A : Type} {addKey : U → U} {json : JsonBody U A}
    {acc : List A} {log : List U} {warns : List (EngineWarning U)} {slept : Nat}
    {responses : List (Response U A)} (h : json.next_url = none) :
    pagLoop addKey json acc log warns slept responses = ⟨.ok acc, log, warns, slept⟩ := by
  obtain ⟨st, res, rc, nu⟩ := json
  simp only at h
  subst h
  rw [pagLoop.eq_def]

/-- Unfolding lemma: a continuation response whose body has no `status` key
raises a KeyError. -/
theorem pagLoop_step_status_missing {U A : Type} {addKey : U → U}
    {st0 : Option String} {res0 : Option (List A)} {rc0 : Option Nat} {nu : U}
    {acc : List A} {log : List U} {warns : List (EngineWarning U)} {slept : Nat}
    {c : Nat} {res : Option (List A)} {rc : Option Nat} {nu2 : Option U}
    {rest : List (Response U A)} :
    pagLoop addKey ⟨st0, res0, rc0, some nu⟩ acc log warns slept
        (⟨c, ⟨none, res, rc, nu2⟩⟩ :: rest) =
      ⟨.error (.keyError "status"), log ++ [addKey nu], warns, slept⟩ := by
  rw [pagLoop.eq_def]

/-- Unfolding lemma: a healthy continuation response appends its rows and
continues the loop with its body. -/
theorem pagLoop_step_rows {U A : Type} {addKey : U → U}
    {st0 : Option String} {res0 : Option (List A)} {rc0 : Option Nat} {nu : U}
    {acc : List A} {log : List U} {warns : List (EngineWarning U)} {slept : Nat}
    {c : Nat} {st : String} {rows : List A} {rc : Option Nat}
    {nu2 : Option U} {rest : List (Response U A)} (hst : ¬ st = "ERROR") :
    pagLoop addKey ⟨st0, res0, rc0, some nu⟩ acc log warns slept
        (⟨c, ⟨some st, some rows, rc, nu2⟩⟩ :: rest) =
      pagLoop addKey ⟨some st, some rows, rc, nu2⟩ (acc ++ rows) (log ++ [addKey nu])
        warns slept rest := by
  rw [pagLoop.eq_def]
  simp [hst]

/-- Unfolding lemma: a non-erroring continuation response whose body has no
`results` key raises a KeyError. -/
theorem pagLoop_step_results_missing {U A : Type} {addKey : U → U}
    {st0 : Option String} {res0 : Option (List A)} {rc0 : Option Nat} {nu : U}
    {acc : List A} {log : List U} {warns : List (EngineWarning U)} {slept : Nat}
    {c : Nat} {st : String} {rc : Option Nat}
    {nu2 : Option U} {rest : List (Response U A)} (hst : ¬ st = "ERROR") :
    pagLoop addKey ⟨st0, res0, rc0, some nu⟩ acc log warns slept
        (⟨c, ⟨some st, none, rc, nu2⟩⟩ :: rest) =
      ⟨.error (.keyError "results"), log ++ [addKey nu], warns, slept⟩ := by
  rw [pagLoop.eq_def]
  simp [hst]

/-- Unfolding lemma: a soft-erroring continuation response followed by a retry
response carrying results continues the loop with the retried body, having
logged the same URL twice and slept 70. -/
theorem pagLoop_step_error_retry {U A : Type} {addKey : U → U}
    {st0 : Option String} {res0 : Option (List A)} {rc0 : Option Nat} {nu : U}
    {acc : List A} {log : List U} {warns : List (EngineWarning U)} {slept : Nat}
    {c1 : Nat} {res1 : Option (List A)} {rc1 : Option Nat} {nu1 : Option U}
    {c2 : Nat} {st2 : Option String} {rows2 : List A} {rc2 : Option Nat}
    {nu2 : Option U} {rest2 : List (Response U A)} :
    pagLoop addKey ⟨st0, res0, rc0, some nu⟩ acc log warns slept
        (⟨c1, ⟨some "ERROR", res1, rc1, nu1⟩⟩ :: ⟨c2, ⟨st2, some rows2, rc2, nu2⟩⟩ :: rest2) =
      pagLoop addKey ⟨st2, some rows2, rc2, nu2⟩ (acc ++ rows2)
        (log ++ [addKey nu, addKey nu]) warns (slept + 70) rest2 := by
  rw [pagLoop.eq_def]
  rfl

/-- Unfolding lemma: a soft-erroring continuation response whose retry body
has no `results` key raises a KeyError after the double request. -/
theorem pagLoop_step_error_retry_missing {U A : Type} {addKey : U → U}
    {st0 : Option String} {res0 : Option (List A)} {rc0 : Option Nat} {nu : U}
    {acc : List A} {log : List U} {warns : List (EngineWarning U)} {slept : Nat}
    {c1 : Nat} {res1 : Option (List A)} {rc1 : Option Nat} {nu1 : Option U}
    {c2 : Nat} {st2 : Option String} {rc2 : Option Nat}
    {nu2 : Option U} {rest2 : List (Response U A)} :
    pagLoop addKey ⟨st0, res0, rc0, some nu⟩ acc log warns slept
        (⟨c1, ⟨some "ERROR", res1, rc1, nu1⟩⟩ :: ⟨c2, ⟨st2, none, rc2, nu2⟩⟩ :: rest2) =
      ⟨.error (.keyError "results"), log ++ [addKey nu, addKey nu], warns, slept + 70⟩ := by
  rw [pagLoop.eq_def]
  rfl

/-- Unfolding lemma: a soft-erroring continuation response with no further
response to serve the retry is a timeout. -/
theorem pagLoop_step_error_last {U A : Type} {addKey : U → U}
    {st0 : Option String} {res0 : Option (List A)} {rc0 : Option Nat} {nu : U}
    {acc : List A} {log : List U} {warns : List (EngineWarning U)} {slept : Nat}
    {c1 : Nat} {res1 : Option (List A)} {rc1 : Option Nat} {nu1 : Option U} :
    pagLoop addKey ⟨st0, res0, rc0, some nu⟩ acc log warns slept
        [⟨c1, ⟨some "ERROR", res1, rc1, nu1⟩⟩] =
      ⟨.error .timeout, log ++ [addKey nu, addKey nu], warns, slept + 70⟩ := by
  rw [pagLoop.eq_def]
  rfl

/-- Unfolding lemma: a continuation cursor with no response left to serve it
is a timeout. -/
theorem pagLoop_step_exhausted {U A : Type} {addKey : U → U}
    {st0 : Option String} {res0 : Option (List A)} {rc0 : Option Nat} {nu : U}
    {acc : List A} {log : List U} {warns : List (EngineWarning U)} {slept : Nat} :
    pagLoop addKey ⟨st0, res0, rc0, some nu⟩ acc log warns slept
        ([] : List (Response U A)) =
      ⟨.error .timeout, log ++ [addKey nu], warns, slept⟩ := by
  rw [pagLoop.eq_def]

/-- Running the pagination loop against the synthetic provider `mkResponses
pages` (previous body advertising a continuation iff pages remain) appends all
pages' rows in order and issues one continuation request per page. -/
theorem pagLoop_mkResponses {A : Type} (addKey : String → String)
    (pages : List (List A)) (st0 : Option String) (res0 : Option (List A))
    (rc0 : Option Nat) (acc : List A)
    (log : List String) (warns : List (EngineWarning String)) (slept : Nat) :
    pagLoop addKey ⟨st0, res0, rc0, if pages.isEmpty then none else some "next"⟩
        acc log warns slept (mkResponses pages) =
      ⟨.ok (acc ++ pages.flatten), log ++ List.replicate pages.length (addKey "next"),
        warns, slept⟩ := by
  induction pages generalizing st0 res0 rc0 acc log slept with
  | nil =>
    rw [pagLoop_next_none rfl]
    simp
  | cons p ps ih =>
    have hmk : mkResponses (p :: ps) =
        goodResp p (if ps.isEmpty then none else some "next") :: mkResponses ps := rfl
    have hif : (if (p :: ps).isEmpty = true then (none : Option String) else some "next") =
        some "next" := by simp
    rw [hmk, hif, goodResp, pagLoop_step_rows (by decide),
      ih (some "OK") (some p) (some p.length) (acc ++ p) (log ++ [addKey "next"]) slept]
    simp [List.replicate_succ, List.append_assoc]

/-- The total number of rows across pages of constant size. -/
theorem flatten_length_of_const {A : Type} (pages : List (List A)) (P : Nat)
    (hP : ∀ p ∈ pages, p.length = P) : pages.flatten.length = pages.length * P := by
  induction pages with
  | nil => simp
  | cons p ps ih =>
    have hp : p.length = P := hP p (by simp)
    have hrec := ih (fun q hq => hP q (by simp [hq]))
    simp [hp, hrec]
    ring

/-- C1: against the claim (and the function's own docstring), a parsed body
declaring `resultsCount == 0` makes `get_paginated_request` warn and return an
empty dataframe irrespective of the `safe` flag: with `safe=true` no
no-results `ValueError` is raised. -/
theorem C1_resultsCount_zero_ignores_safe {U A : Type} (addKey : U → U) (u : U) (safe : Bool)
    (res : Option (List A)) (nu : Option U) (rest : List (Response U A)) :
    get_paginated_request addKey u safe (⟨200, ⟨some "OK", res, some 0, nu⟩⟩ :: rest) =
      ⟨.ok [], [u], [.noResultsFound u], 0⟩ := by
  simp [get_paginated_request, firstBody]

/-- C2, counterexample to the claim as stated: a provider serving N = 2 pages
of P = 1 rows each answers the whole fetch with 2 requests, not N + 1 = 3. -/
theorem C2_counterexample :
    (get_paginated_request (addKeyStr "k") "u0" true
        (mkResponses [[(0 : Nat)], [1]])).log.length ≠ 2 + 1 := by decide

/-- C2 (amended): for a provider serving pages of P ≥ 1 rows each, where every
page except the last carries a continuation and the last carries none,
`get_paginated_request` returns exactly the concatenation of all pages' rows
(each row once, pages in order, row order preserved) and issues exactly N
HTTP requests for N pages. -/
theorem C2_pagination_completeness {A : Type} (apiKey u0 : String) (safe : Bool)
    (pages : List (List A)) (P : Nat)
    (hne : pages ≠ []) (hP : ∀ p ∈ pages, p.length = P) (hpos : 0 < P) :
    (get_paginated_request (addKeyStr apiKey) u0 safe (mkResponses pages)).outcome
        = .ok pages.flatten ∧
    (get_paginated_request (addKeyStr apiKey) u0 safe (mkResponses pages)).log.length
        = pages.length ∧
    pages.flatten.length = pages.length * P := by
  obtain ⟨p0, ps, rfl⟩ := List.exists_cons_of_ne_nil hne
  have hp0 : p0.length = P := hP p0 (by simp)
  have hlen : p0.length ≠ 0 := by
    rw [hp0]
    omega
  have hp0ne : ¬ ((⟨some "OK", some p0, some p0.length,
      if ps.isEmpty then none else some "next"⟩ : JsonBody String A).resultsCount = some 0) := by
    simpa using hlen
  have hrun : get_paginated_request (addKeyStr apiKey) u0 safe (mkResponses (p0 :: ps)) =
      pagLoop (addKeyStr apiKey)
        ⟨some "OK", some p0, some p0.length, if ps.isEmpty then none else some "next"⟩
        p0 [u0] [] 0 (mkResponses ps) := by
    rw [mkResponses]
    simp [get_paginated_request, goodResp, firstBody, hp0ne]
  rw [hrun, pagLoop_mkResponses (addKeyStr apiKey) ps (some "OK") (some p0) (some p0.length)
    p0 [u0] [] 0]
  refine ⟨by simp, by simp, flatten_length_of_const _ P hP⟩

/-- C2, witness instance of the amended pagination theorem at two pages of one
row each. -/
theorem C2_witness :
    ([[(0 : Nat)], [1]] ≠ ([] : List (List Nat))) ∧
    (get_paginated_request (addKeyStr "k") "u0" true
        (mkResponses [[(0 : Nat)], [1]])).outcome = .ok [0, 1] ∧
    (get_paginated_request (addKeyStr "k") "u0" true
        (mkResponses [[(0 : Nat)], [1]])).log.length = 2 := by
  have h := C2_pagination_completeness "k" "u0" true [[(0 : Nat)], [1]] 1
    (by decide) (by decide) (by decide)
  exact ⟨by decide, h.1, h.2.1⟩

/-- C4: a 200 response whose body reports `status == "ERROR"` triggers exactly
one cooldown-and-retry of the same request — on the first page the code
continues by processing the retried body (even if that body itself still
reports the error, as in the second conjunct), and on a continuation page the
loop likewise proceeds with the retried body's results; no third request for
the same URL is ever issued. -/
theorem C4_soft_error_retry_once {U A : Type} (addKey : U → U) (u : U) (safe : Bool) :
    (∀ (res1 : Option (List A)) (rc1 : Option Nat) (nu1 : Option U)
        (r2 : Response U A) (rest : List (Response U A)),
        get_paginated_request addKey u safe
            (⟨200, ⟨some "ERROR", res1, rc1, nu1⟩⟩ :: r2 :: rest) =
          firstBody addKey u r2.body [u, u] 70 rest) ∧
    (∀ (res1 : Option (List A)) (rc1 : Option Nat) (nu1 : Option U) (c2 : Nat)
        (rows2 : List A) (rest : List (Response U A)),
        get_paginated_request addKey u safe
            (⟨200, ⟨some "ERROR", res1, rc1, nu1⟩⟩ ::
              ⟨c2, ⟨some "ERROR", some rows2, none, none⟩⟩ :: rest) =
          ⟨.ok rows2, [u, u], [], 70⟩) ∧
    (∀ (st0 : Option String) (res0 : Option (List A)) (rc0 : Option Nat) (nu : U)
        (acc : List A) (log : List U) (warns : List (EngineWarning U)) (slept : Nat)
        (c1 c2 : Nat) (res1 : Option (List A)) (rc1 : Option Nat) (nu1 : Option U)
        (st2 : Option String) (rows2 : List A) (rc2 : Option Nat)
        (rest : List (Response U A)),
        pagLoop addKey ⟨st0, res0, rc0, some nu⟩ acc log warns slept
            (⟨c1, ⟨some "ERROR", res1, rc1, nu1⟩⟩ ::
              ⟨c2, ⟨st2, some rows2, rc2, none⟩⟩ :: rest) =
          ⟨.ok (acc ++ rows2), log ++ [addKey nu, addKey nu], warns, slept + 70⟩) := by
  refine ⟨?_, ?_, ?_⟩
  · intro res1 rc1 nu1 r2 rest
    rfl
  · intro res1 rc1 nu1 c2 rows2 rest
    calc get_paginated_request addKey u safe
          (⟨200, ⟨some "ERROR", res1, rc1, nu1⟩⟩ ::
            ⟨c2, ⟨some "ERROR", some rows2, none, none⟩⟩ :: rest)
        = pagLoop addKey ⟨some "ERROR", some rows2, none, none⟩ rows2 [u, u] [] 70 rest := rfl
      _ = ⟨.ok rows2, [u, u], [], 70⟩ := pagLoop_next_none rfl
  · intro st0 res0 rc0 nu acc log warns slept c1 c2 res1 rc1 nu1 st2 rows2 rc2 rest
    rw [pagLoop_step_error_retry, pagLoop_next_none rfl]

/-- C9: the non-strict degradation applies only to a non-200 first response
(last conjunct); on continuation pages the HTTP status code is never
consulted (first conjunct: the fetch result is invariant under the
continuation response's status code) and a continuation body missing the
`status` or `results` key raises a KeyError for every value of `safe`
(middle conjuncts). -/
theorem C9_continuation_pages_strict {A : Type} (apiKey u0 : String) (safe : Bool)
    (rows0 : List A) :
    (∀ (code code' : Nat) (body : JsonBody String A) (rest : List (Response String A)),
        get_paginated_request (addKeyStr apiKey) u0 safe
            (⟨200, ⟨some "OK", some rows0, none, some "next"⟩⟩ :: ⟨code, body⟩ :: rest) =
          get_paginated_request (addKeyStr apiKey) u0 safe
            (⟨200, ⟨some "OK", some rows0, none, some "next"⟩⟩ :: ⟨code', body⟩ :: rest)) ∧
    (∀ (code : Nat) (res : Option (List A)) (rc : Option Nat) (nu : Option String)
        (rest : List (Response String A)),
        get_paginated_request (addKeyStr apiKey) u0 safe
            (⟨200, ⟨some "OK", some rows0, none, some "next"⟩⟩ ::
              ⟨code, ⟨none, res, rc, nu⟩⟩ :: rest) =
          ⟨.error (.keyError "status"), [u0, addKeyStr apiKey "next"], [], 0⟩) ∧
    (∀ (code : Nat) (rc : Option Nat) (nu : Option String)
        (rest : List (Response String A)),
        get_paginated_request (addKeyStr apiKey) u0 safe
            (⟨200, ⟨some "OK", some rows0, none, some "next"⟩⟩ ::
              ⟨code, ⟨some "OK", none, rc, nu⟩⟩ :: rest) =
          ⟨.error (.keyError "results"), [u0, addKeyStr apiKey "next"], [], 0⟩) ∧
    (∀ (body0 : JsonBody String A) (rest : List (Response String A)),
        get_paginated_request (addKeyStr apiKey) u0 false (⟨404, body0⟩ :: rest) =
          ⟨.ok [], [u0], [.httpRequestFailed u0], 0⟩) := by
  refine ⟨?_, ?_, ?_, ?_⟩
  · intro code code' body rest
    have h1 : get_paginated_request (addKeyStr apiKey) u0 safe
        (⟨200, ⟨some "OK", some rows0, none, some "next"⟩⟩ :: ⟨code, body⟩ :: rest) =
        pagLoop (addKeyStr apiKey) ⟨some "OK", some rows0, none, some "next"⟩ rows0 [u0] [] 0
          (⟨code, body⟩ :: rest) := rfl
    have h2 : get_paginated_request (addKeyStr apiKey) u0 safe
        (⟨200, ⟨some "OK", some rows0, none, some "next"⟩⟩ :: ⟨code', body⟩ :: rest) =
        pagLoop (addKeyStr apiKey) ⟨some "OK", some rows0, none, some "next"⟩ rows0 [u0] [] 0
          (⟨code', body⟩ :: rest) := rfl
    rw [h1, h2]
    obtain ⟨st, res, rc, nu2⟩ := body
    cases st with
    | none => rw [pagLoop_step_status_missing, pagLoop_step_status_missing]
    | some s =>
      by_cases hs : s = "ERROR"
      · subst hs
        cases rest with
        | nil => rw [pagLoop_step_error_last, pagLoop_step_error_last]
        | cons r2 rest2 =>
          obtain ⟨c2, st2, res2, rc2, nu22⟩ := r2
          cases res2 with
          | none => rw [pagLoop_step_error_retry_missing, pagLoop_step_error_retry_missing]
          | some rows2 => rw [pagLoop_step_error_retry, pagLoop_step_error_retry]
      · cases res with
        | none => rw [pagLoop_step_results_missing hs, pagLoop_step_results_missing hs]
        | some rows => rw [pagLoop_step_rows hs, pagLoop_step_rows hs]
  · intro code res rc nu rest
    have h1 : get_paginated_request (addKeyStr apiKey) u0 safe
        (⟨200, ⟨some "OK", some rows0, none, some "next"⟩⟩ :: ⟨code, ⟨none, res, rc, nu⟩⟩ :: rest) =
        pagLoop (addKeyStr apiKey) ⟨some "OK", some rows0, none, some "next"⟩ rows0 [u0] [] 0
          (⟨code, ⟨none, res, rc, nu⟩⟩ :: rest) := rfl
    rw [h1, pagLoop_step_status_missing]
    rfl
  · intro code rc nu rest
    have h1 : get_paginated_request (addKeyStr apiKey) u0 safe
        (⟨200, ⟨some "OK", some rows0, none, some "next"⟩⟩ ::
          ⟨code, ⟨some "OK", none, rc, nu⟩⟩ :: rest) =
        pagLoop (addKeyStr apiKey) ⟨some "OK", some rows0, none, some "next"⟩ rows0 [u0] [] 0
          (⟨code, ⟨some "OK", none, rc, nu⟩⟩ :: rest) := rfl
    rw [h1, pagLoop_step_results_missing (by decide)]
    rfl
  · intro body0 rest
    rfl

/-- C10: for every datetime whose tzinfo differs from the requested zone (and
for every naive datetime), `set_date`'s normalization takes the
`replace(tzinfo=tz)` branch — unchanged wall clock, so for an aware input the
represented instant shifts — and the `astimezone` branch of the `elif` is
unreachable for every input. -/
theorem C10_set_date_replaces_not_converts :
    (∀ (d : PyDateTime) (tz : Int), (normalize_tz_traced d tz).2 ≠ TzBranch.converted) ∧
    (∀ (d : PyDateTime) (tz o : Int), d.tz = some o → ¬ o = tz →
        normalize_tz d tz = ⟨d.wall, some tz⟩ ∧
        timestamp_ms (normalize_tz d tz) 0 ≠ timestamp_ms d 0) := by
  constructor
  · intro d tz
    by_cases h : d.tz = none ∨ ¬ d.tz = some tz
    · simp [normalize_tz_traced, h]
    · push_neg at h
      simp [normalize_tz_traced, h.1, h.2]
  · intro d tz o ho hne
    have hcond : d.tz = none ∨ ¬ d.tz = some tz := by
      right
      rw [ho]
      exact fun h => hne (Option.some.inj h)
    have hval : normalize_tz d tz = ⟨d.wall, some tz⟩ := by
      unfold normalize_tz normalize_tz_traced
      rw [if_pos hcond]
    refine ⟨hval, ?_⟩
    rw [hval]
    simp only [timestamp_ms, ho, Option.getD_some]
    omega

/-- C10, witness: the aware value wall=100ms offset=+60ms normalized to UTC is
reinterpreted (wall kept, offset replaced), shifting the instant. -/
theorem C10_witness :
    (normalize_tz_traced ⟨100, some 60⟩ 0).2 ≠ TzBranch.converted ∧
    normalize_tz ⟨100, some 60⟩ 0 = ⟨100, some 0⟩ ∧
    timestamp_ms (normalize_tz ⟨100, some 60⟩ 0) 0 ≠ timestamp_ms ⟨100, some 60⟩ 0 := by
  have h := C10_set_date_replaces_not_converts
  have h2 := h.2 ⟨100, some 60⟩ 0 60 rfl (by decide)
  exact ⟨h.1 ⟨100, some 60⟩ 0, h2.1, h2.2⟩

/-- The key-distinctness relation used by the dedup lemmas is symmetric. -/
theorem rowKeyNe_symm : Symmetric (fun x y : OhlcRow => rowKey x ≠ rowKey y) :=
  fun _ _ h => fun e => h e.symm

/-- Members of the deduplicated list come from the original list. -/
theorem dedupLast_subset {L : List OhlcRow} {x : OhlcRow} (h : x ∈ dedupLast L) : x ∈ L := by
  induction L with
  | nil => simp [dedupLast] at h
  | cons y ys ih =>
    rw [dedupLast] at h
    by_cases hc : ys.any (fun z => rowKey z == rowKey y) = true
    · rw [if_pos hc] at h
      exact List.mem_cons_of_mem y (ih h)
    · rw [if_neg hc] at h
      rcases List.mem_cons.mp h with h | h
      · simp [h]
      · exact List.mem_cons_of_mem y (ih h)

/-- `dedupLast` output is key-unique. -/
theorem dedupLast_ukeys (L : List OhlcRow) : UKeys (dedupLast L) := by
  induction L with
  | nil => exact List.Pairwise.nil
  | cons y ys ih =>
    rw [dedupLast]
    by_cases hc : ys.any (fun z => rowKey z == rowKey y) = true
    · rw [if_pos hc]
      exact ih
    · rw [if_neg hc]
      refine List.Pairwise.cons ?_ ih
      intro z hz
      have hz' : z ∈ ys := dedupLast_subset hz
      simp only [List.any_eq_true, beq_iff_eq] at hc
      push_neg at hc
      intro he
      exact hc z hz' he.symm

/-- A key-unique list is left unchanged by `dedupLast`. -/
theorem dedupLast_eq_self {L : List OhlcRow} (h : UKeys L) : dedupLast L = L := by
  induction L with
  | nil => rfl
  | cons y ys ih =>
    rw [dedupLast]
    have hy : ∀ z ∈ ys, rowKey y ≠ rowKey z := fun z hz => List.rel_of_pairwise_cons h hz
    have hc : ys.any (fun z => rowKey z == rowKey y) = false := by
      simp only [List.any_eq_false, beq_iff_eq]
      intro z hz he
      exact hy z hz he.symm
    rw [hc]
    simp only [Bool.false_eq_true, if_false]
    rw [ih (List.Pairwise.sublist (List.sublist_cons_self y ys) h)]

/-- A prefix every key of which reoccurs in the suffix is dropped whole. -/
theorem dedupLast_append_subsumed {P Q : List OhlcRow}
    (h : ∀ x ∈ P, ∃ y ∈ Q, rowKey y = rowKey x) :
    dedupLast (P ++ Q) = dedupLast Q := by
  induction P with
  | nil => rfl
  | cons p P' ih =>
    have hp : ∃ y ∈ Q, rowKey y = rowKey p := h p (by simp)
    obtain ⟨y, hyQ, hyk⟩ := hp
    have hc : (P' ++ Q).any (fun z => rowKey z == rowKey p) = true := by
      simp only [List.any_eq_true, beq_iff_eq]
      exact ⟨y, by simp [hyQ], hyk⟩
    rw [List.cons_append, dedupLast, if_pos hc]
    exact ih (fun x hx => h x (by simp [hx]))

/-- The last occurrence of a key survives `dedupLast`: if nothing after `b`
shares its key, `b` is in the output. -/
theorem mem_dedupLast_last {P S : List OhlcRow} {b : OhlcRow}
    (h : ∀ y ∈ S, rowKey y ≠ rowKey b) : b ∈ dedupLast (P ++ b :: S) := by
  induction P with
  | nil =>
    rw [List.nil_append, dedupLast]
    have hc : S.any (fun z => rowKey z == rowKey b) = false := by
      simp only [List.any_eq_false, beq_iff_eq]
      exact fun z hz => h z hz
    rw [hc]
    simp
  | cons p P' ih =>
    rw [List.cons_append, dedupLast]
    by_cases hc : (P' ++ b :: S).any (fun z => rowKey z == rowKey p) = true
    · rw [if_pos hc]
      exact ih
    · rw [if_neg hc]
      exact List.mem_cons_of_mem p ih

/-- In a key-unique list, two members sharing a key are the same row. -/
theorem ukeys_mem_eq {L : List OhlcRow} {a b : OhlcRow} (h : UKeys L)
    (ha : a ∈ L) (hb : b ∈ L) (hk : rowKey a = rowKey b) : a = b := by
  induction L with
  | nil => simp at ha
  | cons y ys ih =>
    rcases List.mem_cons.mp ha with rfl | ha' <;> rcases List.mem_cons.mp hb with rfl | hb'
    · rfl
    · exact absurd hk (List.rel_of_pairwise_cons h hb')
    · exact absurd hk.symm (List.rel_of_pairwise_cons h ha')
    · exact ih (List.Pairwise.sublist (List.sublist_cons_self y ys) h) ha' hb'

/-- Filtering preserves key-uniqueness. -/
theorem ukeys_filter {data : List OhlcRow} (h : UKeys data) (p : OhlcRow → Bool) :
    UKeys (data.filter p) :=
  List.Pairwise.sublist (List.filter_sublist data) h

/-- Unfolding lemma for reading a non-empty folder. -/
theorem fsRead_cons (e : Int × List OhlcRow) (rest : Folder) (d : Int) :
    fsRead (e :: rest) d = if (e.1 == d) = true then some e.2 else fsRead rest d := by
  cases hb : e.1 == d with
  | true => simp [fsRead, List.find?, hb]
  | false => simp [fsRead, List.find?, hb]

/-- Unfolding lemma for the key list of a non-empty folder. -/
theorem fsKeys_cons (e : Int × List OhlcRow) (rest : Folder) :
    fsKeys (e :: rest) = e.1 :: fsKeys rest := rfl

/-- Reading the file just written. -/
theorem fsRead_write_self (fs : Folder) (d : Int) (v : List OhlcRow) :
    fsRead (fsWrite fs d v) d = some v := by
  induction fs with
  | nil => simp [fsWrite, fsRead_cons]
  | cons e rest ih =>
    rw [fsWrite]
    by_cases he : (e.1 == d) = true
    · rw [if_pos he, fsRead_cons]
      simp
    · rw [if_neg he, fsRead_cons, if_neg (by simpa using he)]
      exact ih

/-- Writing one file leaves the others unchanged. -/
theorem fsRead_write_ne (fs : Folder) (d d' : Int) (v : List OhlcRow) (h : ¬ d' = d) :
    fsRead (fsWrite fs d v) d' = fsRead fs d' := by
  have hdd : ((d : Int) == d') = false := by
    simp only [beq_eq_false_iff_ne, ne_eq]
    exact fun e => h e.symm
  induction fs with
  | nil => simp [fsWrite, fsRead_cons, fsRead, hdd]
  | cons e rest ih =>
    rw [fsWrite]
    by_cases he : (e.1 == d) = true
    · rw [if_pos he, fsRead_cons, fsRead_cons]
      have he1 : e.1 = d := by simpa using he
      rw [he1]
      simp [hdd]
    · rw [if_neg he, fsRead_cons, fsRead_cons, ih]

/-- A file is readable exactly when its date is a key of the folder. -/
theorem fsRead_isSome_iff (fs : Folder) (d : Int) :
    (∃ v, fsRead fs d = some v) ↔ d ∈ fsKeys fs := by
  induction fs with
  | nil => simp [fsRead, fsKeys]
  | cons e rest ih =>
    rw [fsRead_cons, fsKeys_cons]
    by_cases he : (e.1 == d) = true
    · have he1 : e.1 = d := by simpa using he
      simp [he, he1]
    · have hbe : (e.1 == d) = false := by simpa using he
      have he1 : ¬ d = e.1 := by
        have h3 : ¬ e.1 = d := by simpa using he
        exact fun h2 => h3 h2.symm
      rw [hbe]
      simp only [Bool.false_eq_true, if_false]
      rw [ih]
      simp [he1]

/-- Overwriting an existing file keeps the folder's key list. -/
theorem fsKeys_write_mem (fs : Folder) (d : Int) (v : List OhlcRow) (h : d ∈ fsKeys fs) :
    fsKeys (fsWrite fs d v) = fsKeys fs := by
  induction fs with
  | nil => simp [fsKeys] at h
  | cons e rest ih =>
    rw [fsWrite]
    by_cases he : (e.1 == d) = true
    · rw [if_pos he, fsKeys_cons, fsKeys_cons]
      have he1 : e.1 = d := by simpa using he
      rw [he1]
    · rw [if_neg he, fsKeys_cons, fsKeys_cons]
      have hd : d ∈ fsKeys rest := by
        rcases List.mem_cons.mp (by simpa [fsKeys_cons] using h) with h1 | h1
        · exact absurd (by simp [h1]) he
        · exact h1
      rw [ih hd]

/-- Creating a new file appends its date to the folder's key list. -/
theorem fsKeys_write_new (fs : Folder) (d : Int) (v : List OhlcRow) (h : ¬ d ∈ fsKeys fs) :
    fsKeys (fsWrite fs d v) = fsKeys fs ++ [d] := by
  induction fs with
  | nil => simp [fsWrite, fsKeys]
  | cons e rest ih =>
    rw [fsWrite]
    by_cases he : (e.1 == d) = true
    · have he1 : e.1 = d := by simpa using he
      exact absurd (by simp [fsKeys_cons, he1]) h
    · rw [if_neg he, fsKeys_cons, fsKeys_cons]
      have hd : ¬ d ∈ fsKeys rest := fun hm => h (by simp [fsKeys_cons, hm])
      rw [ih hd]
      rfl

/-- Two folders with the same (duplicate-free) key lists and the same reads
are equal — files are identified by name and content. -/
theorem folder_ext : ∀ (fs fs' : Folder), fsKeys fs = fsKeys fs' →
    (fsKeys fs).Nodup → (∀ d, fsRead fs d = fsRead fs' d) → fs = fs' := by
  intro fs
  induction fs with
  | nil =>
    intro fs' hk _ _
    cases fs' with
    | nil => rfl
    | cons e rest => simp [fsKeys] at hk
  | cons e rest ih =>
    intro fs' hk hnd hr
    cases fs' with
    | nil => simp [fsKeys] at hk
    | cons e' rest' =>
      obtain ⟨d, v⟩ := e
      obtain ⟨d', v'⟩ := e'
      rw [fsKeys_cons, fsKeys_cons] at hk
      simp only [List.cons.injEq] at hk
      obtain ⟨hd, hks⟩ := hk
      subst hd
      have hv : v = v' := by
        have h1 := hr d
        rw [fsRead_cons, fsRead_cons] at h1
        simpa using h1
      subst hv
      have hnd2 := List.nodup_cons.mp (by simpa [fsKeys_cons] using hnd)
      have hdn : ¬ d ∈ fsKeys rest := hnd2.1
      have hdn' : ¬ d ∈ fsKeys rest' := by
        rw [← hks]
        exact hdn
      refine congrArg (List.cons (d, v)) (ih rest' hks hnd2.2 ?_)
      intro dq
      by_cases hq : dq = d
      · subst hq
        have h2 : fsRead rest dq = none := by
          rcases hres : fsRead rest dq with _ | w
          · rfl
          · exact absurd ((fsRead_isSome_iff rest dq).mp ⟨w, hres⟩) hdn
        have h3 : fsRead rest' dq = none := by
          rcases hres : fsRead rest' dq with _ | w
          · rfl
          · exact absurd ((fsRead_isSome_iff rest' dq).mp ⟨w, hres⟩) hdn'
        rw [h2, h3]
      · have h1 := hr dq
        rw [fsRead_cons, fsRead_cons] at h1
        have hne : ((d, v).1 == dq) = false := by
          simp only [beq_eq_false_iff_ne, ne_eq]
          exact fun h2 => hq h2.symm
        simpa [hne] using h1

/-- Unfolding lemma for one step of the partition loop. -/
theorem persistLoop_cons (data : List OhlcRow) (t : Nat) (ts : List Nat) (fs : Folder) :
    persistLoop data (t :: ts) fs =
      (if (data.filter (fun r => r.timestamp == t)).length = 0 then persistLoop data ts fs
       else
        match fsRead fs (dateOf t) with
        | some existing => persistLoop data ts (fsWrite fs (dateOf t)
            (dedupLast (existing ++ data.filter (fun r => r.timestamp == t))))
        | none => persistLoop data ts (fsWrite fs (dateOf t)
            (data.filter (fun r => r.timestamp == t)))) := by
  rw [persistLoop.eq_def]

/-- Unfolding lemma for one step of the per-date fold. -/
theorem dateFold_cons (data : List OhlcRow) (t : Nat) (ts : List Nat)
    (cur : Option (List OhlcRow)) :
    dateFold data (t :: ts) cur =
      (if (data.filter (fun r => r.timestamp == t)).length = 0 then dateFold data ts cur
       else
        match cur with
        | some existing => dateFold data ts
            (some (dedupLast (existing ++ data.filter (fun r => r.timestamp == t))))
        | none => dateFold data ts (some (data.filter (fun r => r.timestamp == t)))) := by
  rw [dateFold.eq_def]

/-- The effect of the partition loop on one partition file is the per-date
fold over the timestamps mapping to that date. -/
theorem persistLoop_read (data : List OhlcRow) :
    ∀ (ts : List Nat) (fs : Folder) (d : Int),
    fsRead (persistLoop data ts fs) d =
      dateFold data (ts.filter (fun t => dateOf t == d)) (fsRead fs d) := by
  intro ts
  induction ts with
  | nil => intro fs d; rfl
  | cons t ts' ih =>
    intro fs d
    rw [persistLoop_cons]
    by_cases hd : (dateOf t == d) = true
    · have hdd : dateOf t = d := by simpa using hd
      have hfil : List.filter (fun u => dateOf u == d) (t :: ts') =
          t :: List.filter (fun u => dateOf u == d) ts' := by
        simp [List.filter_cons, hd]
      rw [hfil, dateFold_cons]
      by_cases hz : (data.filter (fun r => r.timestamp == t)).length = 0
      · rw [if_pos hz, if_pos hz]
        exact ih fs d
      · rw [if_neg hz, if_neg hz, ← hdd]
        rcases hcur : fsRead fs (dateOf t) with _ | existing
        · simp only
          rw [ih _ (dateOf t), fsRead_write_self]
        · simp only
          rw [ih _ (dateOf t), fsRead_write_self]
    · have hdd : ¬ d = dateOf t := by
        have h1 : ¬ dateOf t = d := by simpa using hd
        exact fun h2 => h1 h2.symm
      have hfil : List.filter (fun u => dateOf u == d) (t :: ts') =
          List.filter (fun u => dateOf u == d) ts' := by
        simp [List.filter_cons, hd]
      rw [hfil]
      by_cases hz : (data.filter (fun r => r.timestamp == t)).length = 0
      · rw [if_pos hz]
        exact ih fs d
      · rw [if_neg hz]
        rcases hcur : fsRead fs (dateOf t) with _ | existing
        · simp only
          rw [ih _ d, fsRead_write_ne _ _ _ _ hdd]
        · simp only
          rw [ih _ d, fsRead_write_ne _ _ _ _ hdd]

/-- If every nonempty timestamp group targets an already-existing partition
file, the loop creates no new file. -/
theorem persistLoop_keys_existing (data : List OhlcRow) :
    ∀ (ts : List Nat) (fs : Folder),
    (∀ t ∈ ts, (data.filter (fun r => r.timestamp == t)).length ≠ 0 → dateOf t ∈ fsKeys fs) →
    fsKeys (persistLoop data ts fs) = fsKeys fs := by
  intro ts
  induction ts with
  | nil => intro fs _; rfl
  | cons t ts' ih =>
    intro fs h
    rw [persistLoop_cons]
    by_cases hz : (data.filter (fun r => r.timestamp == t)).length = 0
    · rw [if_pos hz]
      exact ih fs (fun u hu => h u (by simp [hu]))
    · rw [if_neg hz]
      have hmem : dateOf t ∈ fsKeys fs := h t (by simp) hz
      obtain ⟨v, hv⟩ := (fsRead_isSome_iff fs (dateOf t)).mpr hmem
      rw [hv]
      have hkeys : fsKeys (fsWrite fs (dateOf t)
          (dedupLast (v ++ data.filter (fun r => r.timestamp == t)))) = fsKeys fs :=
        fsKeys_write_mem fs _ _ hmem
      rw [ih _ (fun u hu hne => by rw [hkeys]; exact h u (by simp [hu]) hne), hkeys]

/-- The partition loop preserves duplicate-freeness of the folder's keys. -/
theorem persistLoop_keys_nodup (data : List OhlcRow) :
    ∀ (ts : List Nat) (fs : Folder),
    (fsKeys fs).Nodup → (fsKeys (persistLoop data ts fs)).Nodup := by
  intro ts
  induction ts with
  | nil => intro fs h; exact h
  | cons t ts' ih =>
    intro fs h
    rw [persistLoop_cons]
    by_cases hz : (data.filter (fun r => r.timestamp == t)).length = 0
    · rw [if_pos hz]
      exact ih fs h
    · rw [if_neg hz]
      rcases hcur : fsRead fs (dateOf t) with _ | existing
      · have hnew : ¬ dateOf t ∈ fsKeys fs := by
          intro hmem
          obtain ⟨v, hv⟩ := (fsRead_isSome_iff fs (dateOf t)).mpr hmem
          rw [hcur] at hv
          exact Option.noConfusion hv
        refine ih _ ?_
        rw [fsKeys_write_new fs _ _ hnew]
        simpa [List.nodup_append] using ⟨h, hnew⟩
      · have hmem : dateOf t ∈ fsKeys fs := (fsRead_isSome_iff fs (dateOf t)).mp ⟨_, hcur⟩
        refine ih _ ?_
        rw [fsKeys_write_mem fs _ _ hmem]
        exact h

/-- Every file the per-date fold can produce is key-unique, provided the
input data and the starting content are. -/
theorem dateFold_ukeys (data : List OhlcRow) (hdata : UKeys data) :
    ∀ (ts : List Nat) (cur : Option (List OhlcRow)),
    (∀ f, cur = some f → UKeys f) →
    ∀ f, dateFold data ts cur = some f → UKeys f := by
  intro ts
  induction ts with
  | nil =>
    intro cur hcur f hf
    exact hcur f hf
  | cons t ts' ih =>
    intro cur hcur f hf
    rw [dateFold_cons] at hf
    by_cases hz : (data.filter (fun r => r.timestamp == t)).length = 0
    · rw [if_pos hz] at hf
      exact ih cur hcur f hf
    · rw [if_neg hz] at hf
      rcases cur with _ | existing
      · refine ih _ ?_ f hf
        intro g hg
        cases hg
        exact ukeys_filter hdata _
      · refine ih _ ?_ f hf
        intro g hg
        cases hg
        exact dedupLast_ukeys _

/-- Every partition file after a run of the loop is key-unique, provided the
written data and all pre-existing files are. -/
theorem persistLoop_files_ukeys (data : List OhlcRow) (hdata : UKeys data)
    (ts : List Nat) (fs : Folder)
    (hfs : ∀ d f, fsRead fs d = some f → UKeys f) :
    ∀ d f, fsRead (persistLoop data ts fs) d = some f → UKeys f := by
  intro d f hf
  rw [persistLoop_read] at hf
  exact dateFold_ukeys data hdata _ (fsRead fs d) (fun g hg => hfs d g hg) f hf

/-- `uniqueFirst` keeps exactly the values of the original list. -/
theorem uniqueFirst_mem : ∀ (l : List Nat) (u : Nat), u ∈ uniqueFirst l ↔ u ∈ l := by
  intro l
  induction l with
  | nil => intro u; rfl
  | cons t ts ih =>
    intro u
    rw [uniqueFirst]
    simp only [List.mem_cons, List.mem_filter, bne_iff_ne, ne_eq]
    constructor
    · rintro (rfl | ⟨hu, _⟩)
      · exact Or.inl rfl
      · exact Or.inr ((ih u).mp hu)
    · rintro (rfl | hu)
      · exact Or.inl rfl
      · by_cases he : u = t
        · exact Or.inl he
        · exact Or.inr ⟨(ih u).mpr hu, he⟩

/-- `uniqueFirst` output is duplicate-free. -/
theorem uniqueFirst_nodup : ∀ (l : List Nat), (uniqueFirst l).Nodup := by
  intro l
  induction l with
  | nil => exact List.nodup_nil
  | cons t ts ih =>
    rw [uniqueFirst]
    refine List.nodup_cons.mpr ⟨?_, ih.filter _⟩
    intro hmem
    have := (List.mem_filter.mp hmem).2
    simp at this

/-- A timestamp drawn from the data has a nonempty row group. -/
theorem rows_ne_nil {data : List OhlcRow} {t : Nat}
    (h : t ∈ uniqueFirst (data.map (fun r => r.timestamp))) :
    (data.filter (fun r => r.timestamp == t)).length ≠ 0 := by
  have hm : t ∈ data.map (fun r => r.timestamp) := (uniqueFirst_mem _ t).mp h
  obtain ⟨r, hr, hrt⟩ := List.mem_map.mp hm
  have : r ∈ data.filter (fun r => r.timestamp == t) :=
    List.mem_filter.mpr ⟨hr, by simp [hrt]⟩
  intro hlen
  rw [List.length_eq_zero.mp hlen] at this
  simp at this

/-- Membership in a concatenation of timestamp groups. -/
theorem mem_flatGroups {data : List OhlcRow} {ts : List Nat} {x : OhlcRow} :
    x ∈ flatGroups data ts ↔ x ∈ data ∧ x.timestamp ∈ ts := by
  rw [flatGroups]
  simp only [List.mem_flatMap, List.mem_filter, beq_iff_eq]
  constructor
  · rintro ⟨t, ht, hx, rfl⟩
    exact ⟨hx, ht⟩
  · rintro ⟨hx, ht⟩
    exact ⟨x.timestamp, ht, hx, rfl⟩

/-- flatGroups over a cons. -/
theorem flatGroups_cons (data : List OhlcRow) (t : Nat) (ts : List Nat) :
    flatGroups data (t :: ts) =
      data.filter (fun r => r.timestamp == t) ++ flatGroups data ts := by
  rw [flatGroups, flatGroups]
  simp [List.flatMap_cons]

/-- For a duplicate-free timestamp list over key-unique data, the
concatenation of the groups is key-unique (rows of different groups differ
already in their timestamp). -/
theorem ukeys_flatGroups {data : List OhlcRow} (hdata : UKeys data) :
    ∀ {ts : List Nat}, ts.Nodup → UKeys (flatGroups data ts) := by
  intro ts
  induction ts with
  | nil =>
    intro _
    exact List.Pairwise.nil
  | cons t ts' ih =>
    intro hnd
    obtain ⟨htn, hnd'⟩ := List.nodup_cons.mp hnd
    rw [flatGroups_cons]
    rw [UKeys, List.pairwise_append]
    refine ⟨ukeys_filter hdata _, ih hnd', ?_⟩
    intro x hx y hy
    have hxt : x.timestamp = t := by
      have := (List.mem_filter.mp hx).2
      simpa using this
    have hyt : y.timestamp ∈ ts' := (mem_flatGroups.mp hy).2
    intro hk
    have hts : x.timestamp = y.timestamp := congrArg Prod.fst hk
    have hyt' : y.timestamp = t := by rw [← hts, hxt]
    exact htn (hyt' ▸ hyt)

/-- All rows of a group concatenation carry timestamps from the list. -/
theorem flatGroups_timestamps {data : List OhlcRow} {ts : List Nat} {x : OhlcRow}
    (h : x ∈ flatGroups data ts) : x.timestamp ∈ ts :=
  (mem_flatGroups.mp h).2

/-- Left part of a key-unique concatenation. -/
theorem ukeys_append_left {L1 L2 : List OhlcRow} (h : UKeys (L1 ++ L2)) : UKeys L1 :=
  (List.pairwise_append.mp h).1

/-- Right part of a key-unique concatenation. -/
theorem ukeys_append_right {L1 L2 : List OhlcRow} (h : UKeys (L1 ++ L2)) : UKeys L2 :=
  (List.pairwise_append.mp h).2.1

/-- Cross keys of a key-unique concatenation differ. -/
theorem ukeys_append_cross {L1 L2 : List OhlcRow} (h : UKeys (L1 ++ L2)) :
    ∀ x ∈ L1, ∀ y ∈ L2, rowKey x ≠ rowKey y :=
  (List.pairwise_append.mp h).2.2

/-- Assembling a key-unique concatenation. -/
theorem ukeys_append_of {L1 L2 : List OhlcRow} (h1 : UKeys L1) (h2 : UKeys L2)
    (hc : ∀ x ∈ L1, ∀ y ∈ L2, rowKey x ≠ rowKey y) : UKeys (L1 ++ L2) :=
  List.pairwise_append.mpr ⟨h1, h2, hc⟩

/-- Rows with different timestamps have different keys. -/
theorem rowKey_ne_of_ts_ne {x y : OhlcRow} (h : ¬ x.timestamp = y.timestamp) :
    rowKey x ≠ rowKey y :=
  fun hk => h (congrArg Prod.fst hk)

/-- In a key-unique list `P ++ b :: S`, nothing in `S` shares `b`'s key. -/
theorem ukeys_middle {P S : List OhlcRow} {b : OhlcRow} (h : UKeys (P ++ b :: S)) :
    ∀ y ∈ S, rowKey y ≠ rowKey b := by
  intro y hy
  have h2 := (List.pairwise_append.mp h).2.1
  exact fun e => (List.rel_of_pairwise_cons h2 hy) e.symm

/-- Rows of the timestamp-`t` group carry timestamp `t`. -/
theorem mem_rows_timestamp {data : List OhlcRow} {t : Nat} {x : OhlcRow}
    (h : x ∈ data.filter (fun r => r.timestamp == t)) : x.timestamp = t := by
  have := (List.mem_filter.mp h).2
  simpa using this

/-- Processing timestamps other than `b`'s preserves `b`'s presence and the
file's key-uniqueness. -/
theorem dateFold_preserve (data : List OhlcRow) (b : OhlcRow) :
    ∀ (ts : List Nat) (f : List OhlcRow), b ∈ f → UKeys f →
    (∀ t ∈ ts, ¬ t = b.timestamp) →
    ∃ f2, dateFold data ts (some f) = some f2 ∧ b ∈ f2 ∧ UKeys f2 := by
  intro ts
  induction ts with
  | nil =>
    intro f hb hUK _
    exact ⟨f, rfl, hb, hUK⟩
  | cons t ts' ih =>
    intro f hb hUK hts
    rw [dateFold_cons]
    by_cases hz : (data.filter (fun r => r.timestamp == t)).length = 0
    · rw [if_pos hz]
      exact ih f hb hUK (fun u hu => hts u (by simp [hu]))
    · rw [if_neg hz]
      obtain ⟨P, S, rfl⟩ := List.append_of_mem hb
      have hmem : b ∈ dedupLast ((P ++ b :: S) ++ data.filter (fun r => r.timestamp == t)) := by
        have hassoc : (P ++ b :: S) ++ data.filter (fun r => r.timestamp == t) =
            P ++ b :: (S ++ data.filter (fun r => r.timestamp == t)) := by
          simp [List.append_assoc]
        rw [hassoc]
        refine mem_dedupLast_last ?_
        intro y hy
        rcases List.mem_append.mp hy with hy1 | hy2
        · exact ukeys_middle hUK y hy1
        · refine rowKey_ne_of_ts_ne ?_
          rw [mem_rows_timestamp hy2]
          exact fun e => hts t (by simp) e
      exact ih _ hmem (dedupLast_ukeys _) (fun u hu => hts u (by simp [hu]))

/-- Once the fold reaches `b`'s timestamp, `b` ends up in the partition file
(and stays there), the file being key-unique. -/
theorem dateFold_mem (data : List OhlcRow) (hdata : UKeys data) (b : OhlcRow)
    (hb : b ∈ data) :
    ∀ (ts : List Nat) (cur : Option (List OhlcRow)), b.timestamp ∈ ts → ts.Nodup →
    (∀ f, cur = some f → UKeys f) →
    ∃ f2, dateFold data ts cur = some f2 ∧ b ∈ f2 ∧ UKeys f2 := by
  intro ts
  induction ts with
  | nil =>
    intro cur hmem
    simp at hmem
  | cons t ts' ih =>
    intro cur hmem hnd hcur
    obtain ⟨htn, hnd'⟩ := List.nodup_cons.mp hnd
    by_cases hbt : t = b.timestamp
    · have hbg : b ∈ data.filter (fun r => r.timestamp == t) :=
        List.mem_filter.mpr ⟨hb, by simp [hbt]⟩
      have hz : ¬ (data.filter (fun r => r.timestamp == t)).length = 0 := by
        intro hlen
        rw [List.length_eq_zero.mp hlen] at hbg
        simp at hbg
      have hts' : ∀ u ∈ ts', ¬ u = b.timestamp := by
        intro u hu he
        rw [← hbt] at he
        exact htn (he ▸ hu)
      rw [dateFold_cons, if_neg hz]
      rcases cur with _ | existing
      · exact dateFold_preserve data b ts' _ hbg (ukeys_filter hdata _) hts'
      · have hUKex : UKeys existing := hcur existing rfl
        have hUKg : UKeys (data.filter (fun r => r.timestamp == t)) := ukeys_filter hdata _
        obtain ⟨P2, S2, hsplit⟩ := List.append_of_mem hbg
        have hmem2 : b ∈ dedupLast (existing ++ data.filter (fun r => r.timestamp == t)) := by
          rw [hsplit]
          have hassoc : existing ++ (P2 ++ b :: S2) = (existing ++ P2) ++ b :: S2 := by
            simp [List.append_assoc]
          rw [hassoc]
          refine mem_dedupLast_last ?_
          intro y hy
          exact ukeys_middle (hsplit ▸ hUKg) y hy
        exact dateFold_preserve data b ts' _ hmem2 (dedupLast_ukeys _) hts'
    · have hbm : b.timestamp ∈ ts' := by
        rcases List.mem_cons.mp hmem with he | hm
        · exact absurd he.symm hbt
        · exact hm
      rw [dateFold_cons]
      by_cases hz : (data.filter (fun r => r.timestamp == t)).length = 0
      · rw [if_pos hz]
        exact ih cur hbm hnd' hcur
      · rw [if_neg hz]
        rcases cur with _ | existing
        · refine ih _ hbm hnd' ?_
          intro g hg
          cases hg
          exact ukeys_filter hdata _
        · refine ih _ hbm hnd' ?_
          intro g hg
          cases hg
          exact dedupLast_ukeys _

/-- Replaying new timestamp groups onto a file whose content is key-disjoint
from them appends the groups in order. -/
theorem dateFold_accum (data : List OhlcRow) :
    ∀ (ts : List Nat) (X : List OhlcRow),
    (∀ t ∈ ts, (data.filter (fun r => r.timestamp == t)).length ≠ 0) →
    UKeys (X ++ flatGroups data ts) →
    dateFold data ts (some X) = some (X ++ flatGroups data ts) := by
  intro ts
  induction ts with
  | nil =>
    intro X _ _
    rw [show flatGroups data [] = [] from rfl, List.append_nil]
    rfl
  | cons t ts' ih =>
    intro X hne hUK
    rw [flatGroups_cons] at hUK
    have hUKX : UKeys ((X ++ data.filter (fun r => r.timestamp == t)) ++ flatGroups data ts') := by
      rw [List.append_assoc]
      exact hUK
    have hXG : UKeys (X ++ data.filter (fun r => r.timestamp == t)) := ukeys_append_left hUKX
    rw [dateFold_cons, if_neg (hne t (by simp))]
    show dateFold data ts' (some (dedupLast (X ++ data.filter (fun r => r.timestamp == t)))) =
      some (X ++ flatGroups data (t :: ts'))
    rw [dedupLast_eq_self hXG]
    rw [ih (X ++ data.filter (fun r => r.timestamp == t)) (fun u hu => hne u (by simp [hu])) hUKX]
    rw [flatGroups_cons, List.append_assoc]

/-- From a missing partition file, replaying the timestamp groups creates the
file with exactly their concatenation. -/
theorem dateFold_fromNone (data : List OhlcRow) (ts : List Nat)
    (hne : ∀ t ∈ ts, (data.filter (fun r => r.timestamp == t)).length ≠ 0)
    (hUK : UKeys (flatGroups data ts)) (hts : ¬ ts = []) :
    dateFold data ts none = some (flatGroups data ts) := by
  obtain ⟨t, ts', rfl⟩ := List.exists_cons_of_ne_nil hts
  rw [dateFold_cons, if_neg (hne t (by simp))]
  rw [flatGroups_cons] at hUK ⊢
  exact dateFold_accum data ts' _ (fun u hu => hne u (by simp [hu])) hUK

/-- Replaying the same timestamp groups onto a file that already holds them
(possibly followed by other, key-disjoint rows `X`) rotates the file back to
`X` followed by the groups: in particular, with `X = []`, the file content is
unchanged. -/
theorem dateFold_rotate (data : List OhlcRow) :
    ∀ (ts : List Nat) (X : List OhlcRow),
    (∀ t ∈ ts, (data.filter (fun r => r.timestamp == t)).length ≠ 0) →
    ts.Nodup →
    UKeys (flatGroups data ts ++ X) →
    (∀ x ∈ X, ¬ x.timestamp ∈ ts) →
    dateFold data ts (some (flatGroups data ts ++ X)) = some (X ++ flatGroups data ts) := by
  intro ts
  induction ts with
  | nil =>
    intro X _ _ _ _
    rw [show flatGroups data [] = [] from rfl, List.nil_append, List.append_nil]
    rfl
  | cons t ts' ih =>
    intro X hne hnd hUK hX
    obtain ⟨htn, hnd'⟩ := List.nodup_cons.mp hnd
    rw [dateFold_cons, if_neg (hne t (by simp))]
    rw [flatGroups_cons] at hUK ⊢
    show dateFold data ts'
        (some (dedupLast ((data.filter (fun r => r.timestamp == t) ++ flatGroups data ts' ++ X) ++
          data.filter (fun r => r.timestamp == t)))) =
      some (X ++ (data.filter (fun r => r.timestamp == t) ++ flatGroups data ts'))
    have hassoc1 : ((data.filter (fun r => r.timestamp == t) ++ flatGroups data ts') ++ X) ++
        data.filter (fun r => r.timestamp == t) =
        data.filter (fun r => r.timestamp == t) ++
          ((flatGroups data ts' ++ X) ++ data.filter (fun r => r.timestamp == t)) := by
      simp [List.append_assoc]
    rw [hassoc1]
    rw [dedupLast_append_subsumed (fun x hx => ⟨x, by simp [hx], rfl⟩)]
    have hperm : ((data.filter (fun r => r.timestamp == t) ++ flatGroups data ts') ++ X).Perm
        ((flatGroups data ts' ++ X) ++ data.filter (fun r => r.timestamp == t)) := by
      rw [List.append_assoc]
      exact List.perm_append_comm
    have hUK2 : UKeys ((flatGroups data ts' ++ X) ++ data.filter (fun r => r.timestamp == t)) :=
      (hperm.pairwise_iff fun h => rowKeyNe_symm h).mp hUK
    rw [dedupLast_eq_self hUK2]
    have hcur : (flatGroups data ts' ++ X) ++ data.filter (fun r => r.timestamp == t) =
        flatGroups data ts' ++ (X ++ data.filter (fun r => r.timestamp == t)) := by
      rw [List.append_assoc]
    rw [hcur]
    have hUK3 : UKeys (flatGroups data ts' ++ (X ++ data.filter (fun r => r.timestamp == t))) := by
      rw [← List.append_assoc]
      exact hUK2
    have hX3 : ∀ x ∈ X ++ data.filter (fun r => r.timestamp == t), ¬ x.timestamp ∈ ts' := by
      intro x hx
      rcases List.mem_append.mp hx with hx1 | hx2
      · exact fun hm => hX x hx1 (by simp [hm])
      · rw [mem_rows_timestamp hx2]
        exact htn
    rw [ih (X ++ data.filter (fun r => r.timestamp == t))
      (fun u hu => hne u (by simp [hu])) hnd' hUK3 hX3]
    rw [List.append_assoc]

/-- With valid arguments the persist entry point runs the partition loop over
the distinct timestamps of the input. -/
theorem post_historical_ohlc_ok (D : List OhlcRow) (tf : String) (m : Int) (fs : Folder)
    (htf : tf ∈ validTimeframes) (hm : ¬ m < 1) :
    post_historical_ohlc D tf m fs =
      .ok (persistLoop D (uniqueFirst (D.map (fun r => r.timestamp))) fs) := by
  unfold post_historical_ohlc ohlc_input_validator
  rw [if_pos htf, if_neg hm]

/-- C3, counterexample to the claim as stated: persisting
A = [(ts 0, "X", v1)] and then B = [(ts 0, "X", v2), (ts day2, "Y", w1),
(ts day2, "Y", w2)] — B sharing the (timestamp, ticker) pair (0, "X") with A
at different field values — leaves the day-2 partition file holding two rows
with the same (timestamp, ticker) pair: the fresh-file branch of
`post_historical_ohlc` writes the filtered rows without deduplication. -/
theorem C3_counterexample :
    post_historical_ohlc [⟨"X", 0, 0, false, 1⟩] "day" 1 [] =
      .ok [(0, [⟨"X", 0, 0, false, 1⟩])] ∧
    post_historical_ohlc
        [⟨"X", 0, 0, false, 2⟩, ⟨"Y", 86400000, 86400000, false, 1⟩,
          ⟨"Y", 86400000, 86400000, false, 2⟩] "day" 1
        [(0, [⟨"X", 0, 0, false, 1⟩])] =
      .ok [(0, [⟨"X", 0, 0, false, 2⟩]),
        (1, [⟨"Y", 86400000, 86400000, false, 1⟩, ⟨"Y", 86400000, 86400000, false, 2⟩])] ∧
    rowKey (⟨"X", 0, 0, false, 1⟩ : OhlcRow) = rowKey (⟨"X", 0, 0, false, 2⟩ : OhlcRow) ∧
    ¬ (⟨"X", 0, 0, false, 1⟩ : OhlcRow) = ⟨"X", 0, 0, false, 2⟩ ∧
    fsRead [(0, [⟨"X", 0, 0, false, 2⟩]),
        (1, [⟨"Y", 86400000, 86400000, false, 1⟩, ⟨"Y", 86400000, 86400000, false, 2⟩])] 1 =
      some [⟨"Y", 86400000, 86400000, false, 1⟩, ⟨"Y", 86400000, 86400000, false, 2⟩] ∧
    rowKey (⟨"Y", 86400000, 86400000, false, 1⟩ : OhlcRow) =
      rowKey (⟨"Y", 86400000, 86400000, false, 2⟩ : OhlcRow) ∧
    ¬ (⟨"Y", 86400000, 86400000, false, 1⟩ : OhlcRow) = ⟨"Y", 86400000, 86400000, false, 2⟩ := by
  refine ⟨by decide, by decide, by decide, by decide, by decide, by decide, by decide⟩

/-- C3 (amended): for input tables that are themselves free of duplicate
(timestamp, ticker) pairs, persisting A and then B where B shares a pair with
a row of A at different field values leaves B's version and not A's in the
partition file of that pair's date, and every partition file holds at most
one row per (timestamp, ticker) pair. -/
theorem C3_last_write_wins (A B : List OhlcRow) (tf : String) (m : Int)
    (htf : tf ∈ validTimeframes) (hm : ¬ m < 1)
    (hA : UKeys A) (hB : UKeys B) (a b : OhlcRow)
    (_ha : a ∈ A) (hb : b ∈ B) (hk : rowKey a = rowKey b) (hne : ¬ a = b)
    (fs1 fs2 : Folder)
    (h1 : post_historical_ohlc A tf m [] = .ok fs1)
    (h2 : post_historical_ohlc B tf m fs1 = .ok fs2) :
    (∃ rows, fsRead fs2 (dateOf b.timestamp) = some rows ∧ b ∈ rows ∧ ¬ a ∈ rows) ∧
    (∀ d rows, fsRead fs2 d = some rows → UKeys rows) := by
  rw [post_historical_ohlc_ok A tf m [] htf hm] at h1
  have hfs1 : fs1 = persistLoop A (uniqueFirst (A.map (fun r => r.timestamp))) [] :=
    (Except.ok.inj h1).symm
  rw [post_historical_ohlc_ok B tf m fs1 htf hm] at h2
  have hfs2 : fs2 = persistLoop B (uniqueFirst (B.map (fun r => r.timestamp))) fs1 :=
    (Except.ok.inj h2).symm
  subst hfs2
  subst hfs1
  have hbase : ∀ d f, fsRead ([] : Folder) d = some f → UKeys f := by
    intro d f hf
    exact Option.noConfusion hf
  have hfs1UK : ∀ d f,
      fsRead (persistLoop A (uniqueFirst (A.map (fun r => r.timestamp))) []) d = some f →
      UKeys f :=
    persistLoop_files_ukeys A hA _ [] hbase
  have hfs2UK := persistLoop_files_ukeys B hB
    (uniqueFirst (B.map (fun r => r.timestamp))) _ hfs1UK
  refine ⟨?_, hfs2UK⟩
  have hmemts : b.timestamp ∈
      (uniqueFirst (B.map (fun r => r.timestamp))).filter
        (fun u => dateOf u == dateOf b.timestamp) := by
    refine List.mem_filter.mpr ⟨?_, by simp⟩
    exact (uniqueFirst_mem _ _).mpr (List.mem_map.mpr ⟨b, hb, rfl⟩)
  obtain ⟨f2, hf2, hbf2, hUKf2⟩ := dateFold_mem B hB b hb
    ((uniqueFirst (B.map (fun r => r.timestamp))).filter
      (fun u => dateOf u == dateOf b.timestamp))
    (fsRead (persistLoop A (uniqueFirst (A.map (fun r => r.timestamp))) [])
      (dateOf b.timestamp))
    hmemts ((uniqueFirst_nodup _).filter _) (fun f hf => hfs1UK _ f hf)
  refine ⟨f2, ?_, hbf2, ?_⟩
  · rw [persistLoop_read]
    exact hf2
  · intro haf2
    exact hne (ukeys_mem_eq hUKf2 haf2 hbf2 hk)

/-- C3, witness instance of the amended merge law at a one-row A and B
sharing the pair (0, "X") with different field values. -/
theorem C3_witness :
    (∃ rows, fsRead [(0, [(⟨"X", 0, 0, false, 2⟩ : OhlcRow)])]
        (dateOf (⟨"X", 0, 0, false, 2⟩ : OhlcRow).timestamp) = some rows ∧
      (⟨"X", 0, 0, false, 2⟩ : OhlcRow) ∈ rows ∧
      ¬ (⟨"X", 0, 0, false, 1⟩ : OhlcRow) ∈ rows) ∧
    (∀ d rows, fsRead [(0, [(⟨"X", 0, 0, false, 2⟩ : OhlcRow)])] d = some rows →
      UKeys rows) :=
  C3_last_write_wins [⟨"X", 0, 0, false, 1⟩] [⟨"X", 0, 0, false, 2⟩] "day" 1
    (by decide) (by decide) (by decide) (by decide)
    ⟨"X", 0, 0, false, 1⟩ ⟨"X", 0, 0, false, 2⟩
    (by decide) (by decide) (by decide) (by decide)
    [(0, [⟨"X", 0, 0, false, 1⟩])] [(0, [⟨"X", 0, 0, false, 2⟩])]
    (by decide) (by decide)

/-- C6, counterexample to the claim as stated: a table holding two rows with
the same (timestamp, ticker) pair is written verbatim by the first persist
(fresh-file branch, no dedup) but collapses to one row on the second persist
(merge branch, keep-last dedup) — the file set after two calls differs from
the file set after one. -/
theorem C6_counterexample :
    post_historical_ohlc [⟨"A", 0, 0, false, 1⟩, ⟨"A", 0, 0, false, 2⟩] "day" 1 [] =
      .ok [(0, [⟨"A", 0, 0, false, 1⟩, ⟨"A", 0, 0, false, 2⟩])] ∧
    post_historical_ohlc [⟨"A", 0, 0, false, 1⟩, ⟨"A", 0, 0, false, 2⟩] "day" 1
        [(0, [⟨"A", 0, 0, false, 1⟩, ⟨"A", 0, 0, false, 2⟩])] =
      .ok [(0, [⟨"A", 0, 0, false, 2⟩])] ∧
    ¬ ([(0, [(⟨"A", 0, 0, false, 2⟩ : OhlcRow)])] : Folder) =
      [(0, [⟨"A", 0, 0, false, 1⟩, ⟨"A", 0, 0, false, 2⟩])] := by
  refine ⟨by decide, by decide, by decide⟩

/-- C6 (amended): for every table free of duplicate (timestamp, ticker)
pairs, persisting it twice to the same target leaves exactly the file set of
a single persist — same partition files with identical contents. -/
theorem C6_persist_idempotent (T : List OhlcRow) (tf : String) (m : Int)
    (htf : tf ∈ validTimeframes) (hm : ¬ m < 1) (hT : UKeys T) (fs1 : Folder)
    (h1 : post_historical_ohlc T tf m [] = .ok fs1) :
    post_historical_ohlc T tf m fs1 = .ok fs1 := by
  rw [post_historical_ohlc_ok T tf m [] htf hm] at h1
  have hfs1 : fs1 = persistLoop T (uniqueFirst (T.map (fun r => r.timestamp))) [] :=
    (Except.ok.inj h1).symm
  subst hfs1
  rw [post_historical_ohlc_ok T tf m _ htf hm]
  congr 1
  have hreadbase : ∀ d, fsRead (persistLoop T (uniqueFirst (T.map (fun r => r.timestamp))) []) d =
      dateFold T ((uniqueFirst (T.map (fun r => r.timestamp))).filter
        (fun u => dateOf u == d)) none := by
    intro d
    rw [persistLoop_read]
    rfl
  have hgrp : ∀ d, ∀ u ∈ (uniqueFirst (T.map (fun r => r.timestamp))).filter
      (fun v => dateOf v == d), (T.filter (fun r => r.timestamp == u)).length ≠ 0 := by
    intro d u hu
    exact rows_ne_nil (List.mem_filter.mp hu).1
  have hgnd : ∀ d : Int, ((uniqueFirst (T.map (fun r => r.timestamp))).filter
      (fun v => dateOf v == d)).Nodup := fun d => (uniqueFirst_nodup _).filter _
  apply folder_ext
  · apply persistLoop_keys_existing
    intro t ht hne0
    have hmt : t ∈ (uniqueFirst (T.map (fun r => r.timestamp))).filter
        (fun v => dateOf v == dateOf t) := List.mem_filter.mpr ⟨ht, by simp⟩
    have hfil : ¬ ((uniqueFirst (T.map (fun r => r.timestamp))).filter
        (fun v => dateOf v == dateOf t)) = [] := List.ne_nil_of_mem hmt
    have hsome : fsRead (persistLoop T (uniqueFirst (T.map (fun r => r.timestamp))) [])
        (dateOf t) = some (flatGroups T ((uniqueFirst (T.map (fun r => r.timestamp))).filter
          (fun v => dateOf v == dateOf t))) := by
      rw [hreadbase]
      exact dateFold_fromNone T _ (hgrp (dateOf t)) (ukeys_flatGroups hT (hgnd (dateOf t))) hfil
    exact (fsRead_isSome_iff _ _).mp ⟨_, hsome⟩
  · exact persistLoop_keys_nodup T _ _
      (persistLoop_keys_nodup T _ [] (by simp [fsKeys]))
  · intro d
    rw [persistLoop_read]
    by_cases hfil : ((uniqueFirst (T.map (fun r => r.timestamp))).filter
        (fun v => dateOf v == d)) = []
    · rw [hfil]
      rfl
    · rw [hreadbase d, dateFold_fromNone T _ (hgrp d) (ukeys_flatGroups hT (hgnd d)) hfil]
      have hrot := dateFold_rotate T ((uniqueFirst (T.map (fun r => r.timestamp))).filter
          (fun v => dateOf v == d)) [] (hgrp d) (hgnd d)
        (by rw [List.append_nil]; exact ukeys_flatGroups hT (hgnd d))
        (by intro x hx; exact absurd hx (List.not_mem_nil x))
      rw [List.append_nil, List.nil_append] at hrot
      exact hrot

/-- C6, witness instance of the amended idempotence law at a one-row table. -/
theorem C6_witness :
    post_historical_ohlc [⟨"A", 0, 0, false, 1⟩] "day" 1
        [(0, [(⟨"A", 0, 0, false, 1⟩ : OhlcRow)])] =
      .ok [(0, [(⟨"A", 0, 0, false, 1⟩ : OhlcRow)])] :=
  C6_persist_idempotent [⟨"A", 0, 0, false, 1⟩] "day" 1 (by decide) (by decide) (by decide)
    [(0, [⟨"A", 0, 0, false, 1⟩])] (by decide)

/-- A single healthy page with no continuation fetches in one request with no
warnings and no sleeping. -/
theorem fetch_onePage {A : Type} (addKey : String → String) (u : String) (safe : Bool)
    (rows : List A) :
    get_paginated_request addKey u safe [onePage rows] = ⟨.ok rows, [u], [], 0⟩ := by
  calc get_paginated_request addKey u safe [onePage rows]
      = pagLoop addKey ⟨some "OK", some rows, none, none⟩ rows [u] [] 0 [] := rfl
    _ = ⟨.ok rows, [u], [], 0⟩ := pagLoop_next_none rfl

/-- Running the per-ticker OHLC loop against a provider serving one healthy
non-empty page per slash-free ticker: slash tickers are skipped with exactly
one warning and no request; every other ticker contributes one request and
its reshaped rows, in input order. -/
theorem ohlc_loop_good (apiKey : String) (net : String → List (Response String OhlcRawRow))
    (m : Int) (tf : String) (s e : Int) (rows : String → List OhlcRawRow) :
    ∀ (tks : List String) (acc : List OhlcRow) (log : List String) (warns : List OhlcWarning),
    (∀ tk ∈ tks, ¬ tk.data.contains '/' = true →
        net (ohlc_url m tf s e apiKey tk) = [onePage (rows tk)] ∧ ¬ rows tk = []) →
    ohlc_loop apiKey net m tf s e tks acc log warns =
      ⟨.ok (acc ++ (tks.filter (fun tk => ! tk.data.contains '/')).flatMap
          (fun tk => (rows tk).map (reshape tk))),
        log ++ (tks.filter (fun tk => ! tk.data.contains '/')).map
          (fun tk => ohlc_url m tf s e apiKey tk),
        warns ++ (tks.filter (fun tk => tk.data.contains '/')).map .slashTicker⟩ := by
  intro tks
  induction tks with
  | nil =>
    intro acc log warns _
    simp [ohlc_loop]
  | cons tk tks' ih =>
    intro acc log warns h
    by_cases hs : tk.data.contains '/' = true
    · have hm : ('/' ∈ tk.data) := by simpa using hs
      rw [ohlc_loop, if_pos hs]
      rw [ih acc log (warns ++ [OhlcWarning.slashTicker tk])
        (fun u hu hns => h u (by simp [hu]) hns)]
      simp [List.filter_cons, hs, hm, List.append_assoc]
    · obtain ⟨hnet, hrows⟩ := h tk (by simp) hs
      rw [ohlc_loop, if_neg hs]
      simp only [hnet, fetch_onePage]
      have hlen : ¬ (rows tk).length = 0 := fun hl => hrows (List.length_eq_zero.mp hl)
      simp only [hlen, if_false, List.map_nil, List.append_nil]
      rw [ih (acc ++ (rows tk).map (reshape tk)) (log ++ [ohlc_url m tf s e apiKey tk])
        warns (fun u hu hns => h u (by simp [hu]) hns)]
      have hm : ¬ ('/' ∈ tk.data) := by simpa using hs
      simp [List.filter_cons, hs, hm, List.append_assoc]

/-- Exceptions escaping the pagination loop are timeouts or KeyErrors. -/
theorem pagLoop_error_shape {U A : Type} (addKey : U → U) :
    ∀ (n : Nat) (responses : List (Response U A)), responses.length ≤ n →
    ∀ (json : JsonBody U A) (acc : List A) (log : List U)
      (warns : List (EngineWarning U)) (slept : Nat) (e : PyError),
    (pagLoop addKey json acc log warns slept responses).outcome = .error e →
    e = .timeout ∨ ∃ k, e = .keyError k := by
  intro n
  induction n with
  | zero =>
    intro responses hlen json acc log warns slept e h
    obtain ⟨st0, res0, rc0, nu0⟩ := json
    rw [Nat.le_zero] at hlen
    rw [List.length_eq_zero.mp hlen] at h
    cases nu0 with
    | none =>
      rw [pagLoop_next_none rfl] at h
      simp at h
    | some nu =>
      rw [pagLoop_step_exhausted] at h
      exact Or.inl (Except.error.inj h).symm
  | succ n ih =>
    intro responses hlen json acc log warns slept e h
    obtain ⟨st0, res0, rc0, nu0⟩ := json
    cases nu0 with
    | none =>
      rw [pagLoop_next_none rfl] at h
      simp at h
    | some nu =>
      rcases responses with _ | ⟨⟨c, st, res, rc, nu2⟩, rest⟩
      · rw [pagLoop_step_exhausted] at h
        exact Or.inl (Except.error.inj h).symm
      · cases st with
        | none =>
          rw [pagLoop_step_status_missing] at h
          exact Or.inr ⟨"status", (Except.error.inj h).symm⟩
        | some s =>
          by_cases hs : s = "ERROR"
          · subst hs
            rcases rest with _ | ⟨⟨c2, st2, res2, rc2, nu22⟩, rest2⟩
            · rw [pagLoop_step_error_last] at h
              exact Or.inl (Except.error.inj h).symm
            · cases res2 with
              | none =>
                rw [pagLoop_step_error_retry_missing] at h
                exact Or.inr ⟨"results", (Except.error.inj h).symm⟩
              | some rows2 =>
                rw [pagLoop_step_error_retry] at h
                refine ih rest2 ?_ _ _ _ _ _ e h
                simp at hlen
                omega
          · cases res with
            | none =>
              rw [pagLoop_step_results_missing hs] at h
              exact Or.inr ⟨"results", (Except.error.inj h).symm⟩
            | some rows =>
              rw [pagLoop_step_rows hs] at h
              refine ih rest ?_ _ _ _ _ _ e h
              simp at hlen
              omega

/-- Exceptions escaping the first-page processing are timeouts or KeyErrors. -/
theorem firstBody_error_shape {U A : Type} (addKey : U → U) (u : U) (json : JsonBody U A)
    (log : List U) (slept : Nat) (responses : List (Response U A)) (e : PyError)
    (h : (firstBody addKey u json log slept responses).outcome = .error e) :
    e = .timeout ∨ ∃ k, e = .keyError k := by
  rw [firstBody] at h
  by_cases hrc : json.resultsCount = some 0
  · rw [if_pos hrc] at h
    simp at h
  · rw [if_neg hrc] at h
    rcases hres : json.results with _ | rows
    · rw [hres] at h
      exact Or.inr ⟨"results", (Except.error.inj h).symm⟩
    · rw [hres] at h
      exact pagLoop_error_shape addKey responses.length responses (Nat.le_refl _)
        json rows log [] slept e h

/-- Exceptions escaping one paginated fetch are timeouts, KeyErrors, or the
safe-mode http-failed ValueError. -/
theorem get_paginated_request_error_shape {U A : Type} (addKey : U → U) (u : U)
    (safe : Bool) (responses : List (Response U A)) (e : PyError)
    (h : (get_paginated_request addKey u safe responses).outcome = .error e) :
    e = .timeout ∨ (∃ k, e = .keyError k) ∨ e = .valueError httpFailedMsg := by
  rcases responses with _ | ⟨⟨c, st, res, rc, nu2⟩, rest⟩
  · exact Or.inl (Except.error.inj h).symm
  · simp only [get_paginated_request] at h
    split at h
    · split at h
      · exact Or.inr (Or.inr (Except.error.inj h).symm)
      · simp at h
    · split at h
      · exact Or.inr (Or.inl ⟨"status", (Except.error.inj h).symm⟩)
      · rename_i s heq
        split at h
        · split at h
          · exact Or.inl (Except.error.inj h).symm
          · rcases firstBody_error_shape addKey u _ _ 70 _ e h with h1 | h1
            · exact Or.inl h1
            · exact Or.inr (Or.inl h1)
        · rcases firstBody_error_shape addKey u _ _ 0 _ e h with h1 | h1
          · exact Or.inl h1
          · exact Or.inr (Or.inl h1)

/-- Exceptions escaping the per-ticker OHLC loop come from the fetch engine:
timeouts, KeyErrors, or the http-failed ValueError — never a precondition
message. -/
theorem ohlc_loop_error_shape (apiKey : String)
    (net : String → List (Response String OhlcRawRow)) (m : Int) (tf : String)
    (s e : Int) :
    ∀ (tks : List String) (acc : List OhlcRow) (log : List String)
      (warns : List OhlcWarning) (err : PyError),
    (ohlc_loop apiKey net m tf s e tks acc log warns).outcome = .error err →
    err = .timeout ∨ (∃ k, err = .keyError k) ∨ err = .valueError httpFailedMsg := by
  intro tks
  induction tks with
  | nil =>
    intro acc log warns err h
    simp [ohlc_loop] at h
  | cons tk tks' ih =>
    intro acc log warns err h
    rw [ohlc_loop] at h
    by_cases hs : tk.data.contains '/' = true
    · rw [if_pos hs] at h
      exact ih _ _ _ err h
    · rw [if_neg hs] at h
      simp only at h
      split at h
      · rename_i e2 heq
        have he2 : e2 = err := Except.error.inj h
        subst he2
        exact get_paginated_request_error_shape _ _ _ _ e2 heq
      · rename_i rows heq
        split at h
        · exact ih _ _ _ err h
        · exact ih _ _ _ err h

/-- The validator rejects unknown timeframes. -/
theorem ohlc_input_validator_invalid_tf (tf : String) (m : Int)
    (htf : ¬ tf ∈ validTimeframes) :
    ohlc_input_validator tf m = .error (.valueError invalidTimeframeMsg) := by
  unfold ohlc_input_validator
  rw [if_neg htf]

/-- The validator rejects multipliers below one. -/
theorem ohlc_input_validator_invalid_mult (tf : String) (m : Int)
    (htf : tf ∈ validTimeframes) (hm : m < 1) :
    ohlc_input_validator tf m = .error (.valueError multiplierMsg) := by
  unfold ohlc_input_validator
  rw [if_pos htf, if_pos hm]

/-- The validator accepts valid timeframe/multiplier pairs. -/
theorem ohlc_input_validator_ok (tf : String) (m : Int)
    (htf : tf ∈ validTimeframes) (hm : ¬ m < 1) :
    ohlc_input_validator tf m = .ok () := by
  unfold ohlc_input_validator
  rw [if_pos htf, if_neg hm]

/-- C5, counterexample to the claim as stated: start = 2020-01-01T12:00+10:00
(wall 43200000 ms, offset +36000000 ms, instant 7200000 ms) and
end = 2020-01-01T03:00+00:00 (instant 10800000 ms) satisfy start < end as
instants, yet `get_historical_ohlc` raises the date-order precondition error
(before any HTTP request): `set_date` replaces the tzinfo on the unchanged
wall clock, so the comparison happens on reinterpreted wall-clock values. -/
theorem C5_counterexample :
    timestamp_ms ⟨43200000, some 36000000⟩ 0 < timestamp_ms ⟨10800000, some 0⟩ 0 ∧
    get_historical_ohlc (fun _ => .error .timeout) 0 "k" (fun _ => [])
        (.dt ⟨43200000, some 36000000⟩) (.dt ⟨10800000, some 0⟩)
        (.list ["AAPL"]) "day" 1 =
      ⟨.error (.valueError dateOrderMsg), [], []⟩ := by
  refine ⟨by decide, by decide⟩

/-- C5 (amended): every precondition violation — start after end once both
dates are canonicalized by tzinfo replacement (part 1), an invalid timeframe
(part 2), a multiplier below 1 (part 3), a non-boolean `include_delisted`
(part 4) — raises synchronously with an empty request log; and for
canonicalized start ≤ end with valid timeframe and multiplier no
precondition error message can escape `get_historical_ohlc` (part 5: every
escaping exception is a fetch-engine error). -/
theorem C5_precondition_errors :
    (∀ (parseIso : String → Except PyError PyDateTime) (localTz : Int) (apiKey : String)
        (net : String → List (Response String OhlcRawRow)) (sd ed : DateInput)
        (tks : StrListArg) (tf : String) (m : Int) (ds de : PyDateTime),
      set_date_norm parseIso localTz sd 0 = .ok ds →
      set_date_norm parseIso localTz ed 0 = .ok de →
      timestamp_ms de localTz < timestamp_ms ds localTz →
      get_historical_ohlc parseIso localTz apiKey net sd ed tks tf m =
        ⟨.error (.valueError dateOrderMsg), [], []⟩) ∧
    (∀ (parseIso : String → Except PyError PyDateTime) (localTz : Int) (apiKey : String)
        (net : String → List (Response String OhlcRawRow)) (sd ed : DateInput)
        (tks : StrListArg) (tf : String) (m : Int),
      ¬ tf ∈ validTimeframes →
      (∃ err, (get_historical_ohlc parseIso localTz apiKey net sd ed tks tf m).outcome =
        .error err) ∧
      (get_historical_ohlc parseIso localTz apiKey net sd ed tks tf m).log = []) ∧
    (∀ (parseIso : String → Except PyError PyDateTime) (localTz : Int) (apiKey : String)
        (net : String → List (Response String OhlcRawRow)) (sd ed : DateInput)
        (tks : StrListArg) (tf : String) (m : Int),
      m < 1 →
      (∃ err, (get_historical_ohlc parseIso localTz apiKey net sd ed tks tf m).outcome =
        .error err) ∧
      (get_historical_ohlc parseIso localTz apiKey net sd ed tks tf m).log = []) ∧
    (∀ (B : Type) (parseIso : String → Except PyError PyDateTime) (localTz : Int)
        (apiKey : String) (net : String → List (Response String B)) (l : List String),
      get_historical_tickers parseIso localTz apiKey net (.list l) .notBool "" =
        ⟨.error (.typeError "include_delisted must be a boolean"), [], []⟩) ∧
    (∀ (parseIso : String → Except PyError PyDateTime) (localTz : Int) (apiKey : String)
        (net : String → List (Response String OhlcRawRow)) (sd ed : DateInput)
        (l : List String) (tf : String) (m : Int) (ds de : PyDateTime),
      set_date_norm parseIso localTz sd 0 = .ok ds →
      set_date_norm parseIso localTz ed 0 = .ok de →
      ¬ timestamp_ms de localTz < timestamp_ms ds localTz →
      tf ∈ validTimeframes → ¬ m < 1 →
      ∀ err, (get_historical_ohlc parseIso localTz apiKey net sd ed (.list l) tf m).outcome =
          .error err →
        ¬ err = .valueError dateOrderMsg ∧ ¬ err = .valueError invalidTimeframeMsg ∧
          ¬ err = .valueError multiplierMsg) := by
  refine ⟨?_, ?_, ?_, ?_, ?_⟩
  · intro parseIso localTz apiKey net sd ed tks tf m ds de hsd hed horder
    simp only [get_historical_ohlc, hsd, hed]
    rw [if_pos horder]
  · intro parseIso localTz apiKey net sd ed tks tf m htf
    rcases hsd : set_date_norm parseIso localTz sd 0 with e1 | ds
    · refine ⟨⟨e1, ?_⟩, ?_⟩ <;> simp [get_historical_ohlc, hsd]
    · rcases hed : set_date_norm parseIso localTz ed 0 with e2 | de
      · refine ⟨⟨e2, ?_⟩, ?_⟩ <;> simp [get_historical_ohlc, hsd, hed]
      · by_cases horder : timestamp_ms de localTz < timestamp_ms ds localTz
        · refine ⟨⟨.valueError dateOrderMsg, ?_⟩, ?_⟩ <;>
            simp [get_historical_ohlc, hsd, hed, horder]
        · rcases hsl : set_str_list tks with e3 | l
          · refine ⟨⟨e3, ?_⟩, ?_⟩ <;> simp [get_historical_ohlc, hsd, hed, horder, hsl]
          · refine ⟨⟨.valueError invalidTimeframeMsg, ?_⟩, ?_⟩ <;>
              simp [get_historical_ohlc, hsd, hed, horder, hsl,
                ohlc_input_validator_invalid_tf tf m htf]
  · intro parseIso localTz apiKey net sd ed tks tf m hm
    rcases hsd : set_date_norm parseIso localTz sd 0 with e1 | ds
    · refine ⟨⟨e1, ?_⟩, ?_⟩ <;> simp [get_historical_ohlc, hsd]
    · rcases hed : set_date_norm parseIso localTz ed 0 with e2 | de
      · refine ⟨⟨e2, ?_⟩, ?_⟩ <;> simp [get_historical_ohlc, hsd, hed]
      · by_cases horder : timestamp_ms de localTz < timestamp_ms ds localTz
        · refine ⟨⟨.valueError dateOrderMsg, ?_⟩, ?_⟩ <;>
            simp [get_historical_ohlc, hsd, hed, horder]
        · rcases hsl : set_str_list tks with e3 | l
          · refine ⟨⟨e3, ?_⟩, ?_⟩ <;> simp [get_historical_ohlc, hsd, hed, horder, hsl]
          · by_cases htf : tf ∈ validTimeframes
            · refine ⟨⟨.valueError multiplierMsg, ?_⟩, ?_⟩ <;>
                simp [get_historical_ohlc, hsd, hed, horder, hsl,
                  ohlc_input_validator_invalid_mult tf m htf hm]
            · refine ⟨⟨.valueError invalidTimeframeMsg, ?_⟩, ?_⟩ <;>
                simp [get_historical_ohlc, hsd, hed, horder, hsl,
                  ohlc_input_validator_invalid_tf tf m htf]
  · intro B parseIso localTz apiKey net l
    rfl
  · intro parseIso localTz apiKey net sd ed l tf m ds de hsd hed horder htf hm err hout
    simp only [get_historical_ohlc, hsd, hed, set_str_list,
      ohlc_input_validator_ok tf m htf hm] at hout
    rw [if_neg horder] at hout
    split at hout
    · rename_i rows heq
      split at hout
      · simp at hout
      · rw [heq] at hout
        simp at hout
    · rename_i e2 heq
      have he2 : e2 = err := by
        rw [heq] at hout
        exact Except.error.inj hout
      subst he2
      rcases ohlc_loop_error_shape apiKey net m tf _ _ l [] [] [] e2 heq with h1 | ⟨k, h1⟩ | h1
      · subst h1
        refine ⟨by decide, by decide, by decide⟩
      · subst h1
        refine ⟨by simp, by simp, by simp⟩
      · subst h1
        refine ⟨by decide, by decide, by decide⟩

/-- C5, witness instances of the amended precondition theorem: an inverted
canonicalized range, a bad timeframe, a zero multiplier, a non-boolean
`include_delisted`, and a valid call whose network timeout is provably not a
precondition error. -/
theorem C5_witness :
    get_historical_ohlc (fun _ => .error .timeout) 0 "k" (fun _ => [])
        (.dt ⟨1000, none⟩) (.dt ⟨0, none⟩) (.list ["AAPL"]) "day" 1 =
      ⟨.error (.valueError dateOrderMsg), [], []⟩ ∧
    ((∃ err, (get_historical_ohlc (fun _ => .error .timeout) 0 "k" (fun _ => [])
        (.dt ⟨0, none⟩) (.dt ⟨1000, none⟩) (.list ["AAPL"]) "dayy" 1).outcome =
      .error err) ∧
     (get_historical_ohlc (fun _ => .error .timeout) 0 "k" (fun _ => [])
        (.dt ⟨0, none⟩) (.dt ⟨1000, none⟩) (.list ["AAPL"]) "dayy" 1).log = []) ∧
    ((∃ err, (get_historical_ohlc (fun _ => .error .timeout) 0 "k" (fun _ => [])
        (.dt ⟨0, none⟩) (.dt ⟨1000, none⟩) (.list ["AAPL"]) "day" 0).outcome =
      .error err) ∧
     (get_historical_ohlc (fun _ => .error .timeout) 0 "k" (fun _ => [])
        (.dt ⟨0, none⟩) (.dt ⟨1000, none⟩) (.list ["AAPL"]) "day" 0).log = []) ∧
    get_historical_tickers (B := Nat) (fun _ => .error .timeout) 0 "k" (fun _ => [])
        (.list ["CS"]) .notBool "" =
      ⟨.error (.typeError "include_delisted must be a boolean"), [], []⟩ ∧
    (¬ (PyError.timeout : PyError) = .valueError dateOrderMsg ∧
     ¬ (PyError.timeout : PyError) = .valueError invalidTimeframeMsg ∧
     ¬ (PyError.timeout : PyError) = .valueError multiplierMsg) := by
  obtain ⟨h1, h2, h3, h4, h5⟩ := C5_precondition_errors
  refine ⟨?_, ?_, ?_, ?_, ?_⟩
  · exact h1 (fun _ => .error .timeout) 0 "k" (fun _ => []) (.dt ⟨1000, none⟩) (.dt ⟨0, none⟩)
      (.list ["AAPL"]) "day" 1 ⟨1000, some 0⟩ ⟨0, some 0⟩ (by decide) (by decide) (by decide)
  · exact h2 (fun _ => .error .timeout) 0 "k" (fun _ => []) (.dt ⟨0, none⟩) (.dt ⟨1000, none⟩)
      (.list ["AAPL"]) "dayy" 1 (by decide)
  · exact h3 (fun _ => .error .timeout) 0 "k" (fun _ => []) (.dt ⟨0, none⟩) (.dt ⟨1000, none⟩)
      (.list ["AAPL"]) "day" 0 (by decide)
  · exact h4 Nat (fun _ => .error .timeout) 0 "k" (fun _ => []) ["CS"]
  · exact h5 (fun _ => .error .timeout) 0 "k" (fun _ => []) (.dt ⟨0, none⟩) (.dt ⟨1000, none⟩)
      ["AAPL"] "day" 1 ⟨0, some 0⟩ ⟨1000, some 0⟩ (by decide) (by decide) (by decide)
      (by decide) (by decide) .timeout (by decide)

/-- C7: with valid arguments, against a provider serving one healthy
non-empty page per slash-free symbol, every symbol containing '/' is skipped
with a warning and never produces a request URL, while all other symbols of
the same call are fetched in input order (the request log is exactly their
URLs in order, and the result concatenates their reshaped rows in order). -/
theorem C7_slash_tickers_skipped
    (parseIso : String → Except PyError PyDateTime) (localTz : Int) (apiKey : String)
    (net : String → List (Response String OhlcRawRow))
    (sd ed : DateInput) (l : List String) (tf : String) (m : Int)
    (ds de : PyDateTime) (rows : String → List OhlcRawRow)
    (hsd : set_date_norm parseIso localTz sd 0 = .ok ds)
    (hed : set_date_norm parseIso localTz ed 0 = .ok de)
    (horder : ¬ timestamp_ms de localTz < timestamp_ms ds localTz)
    (htf : tf ∈ validTimeframes) (hm : ¬ m < 1)
    (hnet : ∀ tk ∈ l, ¬ tk.data.contains '/' = true →
        net (ohlc_url m tf (timestamp_ms ds localTz) (timestamp_ms de localTz) apiKey tk) =
          [onePage (rows tk)] ∧ ¬ rows tk = [])
    (hsome : ¬ l.filter (fun tk => ! tk.data.contains '/') = []) :
    (get_historical_ohlc parseIso localTz apiKey net sd ed (.list l) tf m).log =
      (l.filter (fun tk => ! tk.data.contains '/')).map
        (fun tk => ohlc_url m tf (timestamp_ms ds localTz) (timestamp_ms de localTz)
          apiKey tk) ∧
    (get_historical_ohlc parseIso localTz apiKey net sd ed (.list l) tf m).warns =
      (l.filter (fun tk => tk.data.contains '/')).map .slashTicker ∧
    (get_historical_ohlc parseIso localTz apiKey net sd ed (.list l) tf m).outcome =
      .ok ((l.filter (fun tk => ! tk.data.contains '/')).flatMap
        (fun tk => (rows tk).map (reshape tk))) := by
  have hloop := ohlc_loop_good apiKey net m tf (timestamp_ms ds localTz)
    (timestamp_ms de localTz) rows l [] [] [] hnet
  have hflat : ¬ ((l.filter (fun tk => ! tk.data.contains '/')).flatMap
      (fun tk => (rows tk).map (reshape tk))) = [] := by
    obtain ⟨tk0, r, hfeq⟩ := List.exists_cons_of_ne_nil hsome
    have htk0 : tk0 ∈ l.filter (fun tk => ! tk.data.contains '/') := by
      rw [hfeq]
      simp
    have hns : ¬ tk0.data.contains '/' = true := by
      have := (List.mem_filter.mp htk0).2
      simpa using this
    have hr0 : ¬ rows tk0 = [] := (hnet tk0 (List.mem_filter.mp htk0).1 hns).2
    rw [hfeq]
    simp only [List.flatMap_cons]
    intro hcon
    rcases List.append_eq_nil.mp hcon with ⟨hmap, _⟩
    exact hr0 (List.map_eq_nil_iff.mp hmap)
  have hlen : ¬ ((l.filter (fun tk => ! tk.data.contains '/')).flatMap
      (fun tk => (rows tk).map (reshape tk))).length = 0 :=
    fun hl => hflat (List.length_eq_zero.mp hl)
  have hrun : get_historical_ohlc parseIso localTz apiKey net sd ed (.list l) tf m =
      ⟨.ok ((l.filter (fun tk => ! tk.data.contains '/')).flatMap
          (fun tk => (rows tk).map (reshape tk))),
        (l.filter (fun tk => ! tk.data.contains '/')).map
          (fun tk => ohlc_url m tf (timestamp_ms ds localTz) (timestamp_ms de localTz)
            apiKey tk),
        (l.filter (fun tk => tk.data.contains '/')).map .slashTicker⟩ := by
    simp only [get_historical_ohlc, hsd, hed, set_str_list,
      ohlc_input_validator_ok tf m htf hm, hloop, List.nil_append]
    rw [if_neg horder]
    rw [if_neg hlen]
  rw [hrun]
  exact ⟨rfl, rfl, rfl⟩

/-- C7, witness instance: the call with symbols ["BRK/B", "AAPL"] logs
exactly the AAPL request URL, warns exactly about BRK/B, and returns AAPL's
reshaped rows. -/
theorem C7_witness :
    (get_historical_ohlc (fun _ => .error .timeout) 0 "k"
        (fun _ => [onePage [⟨none, 5, none, 9⟩]])
        (.dt ⟨0, none⟩) (.dt ⟨1000, none⟩) (.list ["BRK/B", "AAPL"]) "day" 1).log =
      (["BRK/B", "AAPL"].filter (fun tk => ! tk.data.contains '/')).map
        (fun tk => ohlc_url 1 "day" (timestamp_ms ⟨0, some 0⟩ 0)
          (timestamp_ms ⟨1000, some 0⟩ 0) "k" tk) ∧
    (get_historical_ohlc (fun _ => .error .timeout) 0 "k"
        (fun _ => [onePage [⟨none, 5, none, 9⟩]])
        (.dt ⟨0, none⟩) (.dt ⟨1000, none⟩) (.list ["BRK/B", "AAPL"]) "day" 1).warns =
      (["BRK/B", "AAPL"].filter (fun tk => tk.data.contains '/')).map .slashTicker ∧
    (get_historical_ohlc (fun _ => .error .timeout) 0 "k"
        (fun _ => [onePage [⟨none, 5, none, 9⟩]])
        (.dt ⟨0, none⟩) (.dt ⟨1000, none⟩) (.list ["BRK/B", "AAPL"]) "day" 1).outcome =
      .ok ((["BRK/B", "AAPL"].filter (fun tk => ! tk.data.contains '/')).flatMap
        (fun tk => (List.map (reshape tk) [⟨none, 5, none, 9⟩]))) :=
  C7_slash_tickers_skipped (fun _ => .error .timeout) 0 "k"
    (fun _ => [onePage [⟨none, 5, none, 9⟩]]) (.dt ⟨0, none⟩) (.dt ⟨1000, none⟩)
    ["BRK/B", "AAPL"] "day" 1 ⟨0, some 0⟩ ⟨1000, some 0⟩ (fun _ => [⟨none, 5, none, 9⟩])
    (by decide) (by decide) (by decide) (by decide) (by decide) (by decide) (by decide)

/-- Running the per-type tickers loop against a provider serving one healthy
page per reference request: each type contributes its active-tickers request,
then (only when delisted tickers are included) its inactive-tickers request,
and the rows concatenate in per-type, active-then-inactive order. -/
theorem tickers_loop_good {B : Type} (apiKey : String)
    (net : String → List (Response String B)) (datePart : String) (incl : Bool)
    (act inact : String → List B) :
    ∀ (tys : List String) (acc : List B) (log : List String)
      (warns : List (EngineWarning String)),
    (∀ ty ∈ tys, net (tickers_url apiKey datePart ty true) = [onePage (act ty)] ∧
        net (tickers_url apiKey datePart ty false) = [onePage (inact ty)]) →
    tickers_loop apiKey net datePart incl tys acc log warns =
      ⟨.ok (acc ++ tys.flatMap (fun ty => act ty ++ if incl then inact ty else [])),
        log ++ tys.flatMap (fun ty => tickers_url apiKey datePart ty true ::
          if incl then [tickers_url apiKey datePart ty false] else []),
        warns⟩ := by
  intro tys
  induction tys with
  | nil =>
    intro acc log warns _
    simp [tickers_loop]
  | cons ty rest ih =>
    intro acc log warns h
    obtain ⟨h1, h2⟩ := h ty (by simp)
    have ih' : ∀ (acc2 : List B) (log2 : List String) (warns2 : List (EngineWarning String)),
        tickers_loop apiKey net datePart incl rest acc2 log2 warns2 =
          ⟨.ok (acc2 ++ rest.flatMap (fun t2 => act t2 ++ if incl then inact t2 else [])),
            log2 ++ rest.flatMap (fun t2 => tickers_url apiKey datePart t2 true ::
              if incl then [tickers_url apiKey datePart t2 false] else []),
            warns2⟩ :=
      fun a b c => ih a b c (fun u hu => h u (by simp [hu]))
    cases incl with
    | true =>
      rw [tickers_loop]
      simp [h1, h2, fetch_onePage, ih']
    | false =>
      rw [tickers_loop]
      simp [h1, h2, fetch_onePage, ih']

/-- C8: with `ticker_types` left unspecified (Python `None`), the code does
not discover instrument types from any endpoint: `set_str_list(None)` raises
TypeError before a single request URL is logged.  Only when the caller passes
the types explicitly does the documented behaviour hold: one active-tickers
fetch per type, plus one inactive-tickers fetch when delisted tickers are
included, concatenated in per-type, active-then-inactive order. -/
theorem C8_types_default_raises (B : Type)
    (parseIso : String → Except PyError PyDateTime) (localTz : Int) (apiKey : String)
    (net : String → List (Response String B)) (incl : PyBoolArg) (date : String)
    (tys : List String) (inclB : Bool) (act inact : String → List B)
    (hnet : ∀ ty ∈ tys, net (tickers_url apiKey "" ty true) = [onePage (act ty)] ∧
        net (tickers_url apiKey "" ty false) = [onePage (inact ty)]) :
    get_historical_tickers parseIso localTz apiKey net .pyNone incl date =
      ⟨.error (.typeError "invalid lst argument: must be of type string, list, or numpy array"),
        [], []⟩ ∧
    get_historical_tickers parseIso localTz apiKey net (.list tys) (.b inclB) "" =
      ⟨.ok (tys.flatMap (fun ty => act ty ++ if inclB then inact ty else [])),
        tys.flatMap (fun ty => tickers_url apiKey "" ty true ::
          if inclB then [tickers_url apiKey "" ty false] else []),
        []⟩ := by
  refine ⟨rfl, ?_⟩
  have hrun := tickers_loop_good apiKey net "" inclB act inact tys [] [] [] hnet
  show tickers_loop apiKey net "" inclB tys [] [] [] = _
  rw [hrun]
  simp

/-- C8, witness instance: `ticker_types=None` yields the TypeError with an
empty request log, while the explicit type list `["CS"]` with delisted
tickers included issues the active then the inactive request for `CS` and
concatenates the rows in that order. -/
theorem C8_witness :
    get_historical_tickers (B := Nat) (fun _ => .error .timeout) 0 "k"
        (fun u => if u = tickers_url "k" "" "CS" true then [onePage [1, 2]] else [onePage [3]])
        .pyNone (.b true) "d" =
      ⟨.error (.typeError "invalid lst argument: must be of type string, list, or numpy array"),
        [], []⟩ ∧
    get_historical_tickers (B := Nat) (fun _ => .error .timeout) 0 "k"
        (fun u => if u = tickers_url "k" "" "CS" true then [onePage [1, 2]] else [onePage [3]])
        (.list ["CS"]) (.b true) "" =
      ⟨.ok (["CS"].flatMap (fun ty =>
          (fun _ => [1, 2]) ty ++ if true then (fun _ => [3]) ty else [])),
        ["CS"].flatMap (fun ty => tickers_url "k" "" ty true ::
          if true then [tickers_url "k" "" ty false] else []),
        []⟩ :=
  C8_types_default_raises Nat (fun _ => .error .timeout) 0 "k"
    (fun u => if u = tickers_url "k" "" "CS" true then [onePage [1, 2]] else [onePage [3]])
    (.b true) "d" ["CS"] true (fun _ => [1, 2]) (fun _ => [3]) (by decide)
